import Mathlib

/-!
# lecs : entity and component runtime

Shallow embedding of `src/code architectures/lecs.h` (namespace `lecs`) and of the
methods `Set` and `Plot` of `src/data structures/Graphics/LineSeg.hpp` (namespace `lio`).

Conventions of the embedding.

* A call ends in one of three ways, recorded by `Outcome`: it returns, it lets a
  `std::out_of_range` escape (the object keeps the state reached at the throw and the
  caller may go on using it), or it has undefined behaviour (a read through a null
  pointer, an index beyond a `std::array` or `std::bitset`): nothing follows.
* `std::array<std::unique_ptr<Component>, MAX_COMPONENT>` and
  `std::bitset<MAX_COMPONENT>` are functions on slot numbers that are only ever
  consulted below `MAX_COMPONENT`; every access is guarded by that bound.
* A component type `T` is given by the number `get_component_type_id<T>()` and the
  fields of the derived type by a value of an arbitrary type `V`.
* `Entity&` held by a caller is the number of the table slot that owns the entity.
* Destruction and deallocation of objects are not modelled.
* `logger.add_log` is a diagnostic sink. A log call is modelled only where building
  its message reads program state (`update`) or where it is the whole reaction to a
  condition (`get_component`, `get_component_type_id`).
* Component and event types are the values of a type `κ` with decidable equality. The
  function-local statics that hold their ids, the `subscribed` vector of every
  subscriber and the members of every `EventManager` make up a `World`; event managers
  and subscribers are named by numbers.
* The body of a `receive` override is a list of `is_event`, `subscribe` and
  `unsubscribe` calls; a nested `emit` from inside `receive` is not modelled. The
  constructor arguments of an emitted event are not modelled, only the stamps `emit`
  puts on it.
* Inserting into or erasing from a vector while a range-based `for` runs over it
  invalidates the iterators of the loop: going on with the loop is undefined.
* The body of a `System::update` override is a function on the entity manager it is
  handed.
* `int` arithmetic of `Plot` is arithmetic on unbounded integers.
-/

namespace lecs

variable {V : Type}

/-- The constant `MAX_COMPONENT` (line 23). -/
def MAX_COMPONENT : Nat := 32

/-- Ways a call can end. `returned a s`: normal return of `a`, object now in state `s`.
`thrown s`: `std::out_of_range` propagates, object left in state `s`.
`undefined`: undefined behaviour. -/
inductive Outcome (σ α : Type) where
  | returned (a : α) (s : σ) : Outcome σ α
  | thrown (s : σ) : Outcome σ α
  | undefined : Outcome σ α

/-- State in which the caller carries on after the call, when there is one. -/
def Outcome.continues {σ α : Type} : Outcome σ α → Option σ
  | .returned _ s => some s
  | .thrown s => some s
  | .undefined => none

/-- Class `Component` (lines 127-133) together with the fields of the derived type. -/
structure Component (V : Type) where
  entity : Nat
  value : V

/-- What a `T&` handed back to the caller refers to. -/
inductive Ref (V : Type) where
  /-- A component owned by a slot of the entity. -/
  | object (c : Component V) : Ref V
  /-- Formed by `*ptr` from a null `ptr`. -/
  | null : Ref V
  /-- A local variable of the function that has returned; `c` is what it held. -/
  | expired_local (c : Component V) : Ref V

/-- Component the caller can read through the reference once the call has returned. -/
def Ref.read : Ref V → Option (Component V)
  | .object c => some c
  | .null => none
  | .expired_local _ => none

/-- Class `Entity` (lines 157-274). -/
structure Entity (V : Type) where
  active : Bool
  components : Nat → Option (Component V)
  component_bitset : Nat → Bool
  id : Nat

/-- Constructor `Entity(entity_manager, id)` (line 172): active, all slots null, no bit set. -/
def Entity.construct (id : Nat) : Entity V :=
  { active := true, components := fun _ => none, component_bitset := fun _ => false, id := id }

/-- Method `is_active` (lines 175-178). -/
def Entity.is_active (e : Entity V) : Bool := e.active

/-- Method `add_component<T>(mArgs...)` (lines 221-237); `tid` is `get_component_type_id<T>()`
and `v` the value built from the constructor arguments. -/
def Entity.add_component (e : Entity V) (tid : Nat) (v : V) : Outcome (Entity V) (Ref V) :=
  if tid < MAX_COMPONENT then
    let c : Component V := { entity := e.id, value := v }
    .returned (.object c)
      { e with
        components := fun j => if j = tid then some c else e.components j
        component_bitset := fun j => if j = tid then true else e.component_bitset j }
  else .undefined

/-- Method `remove_component<T>()` (lines 240-253). The slot pointer is read without a test
(line 243), the slot and the bit are cleared, and the local copy `c` is returned by
reference although the declared return type is `T&`. -/
def Entity.remove_component (e : Entity V) (tid : Nat) : Outcome (Entity V) (Ref V) :=
  if tid < MAX_COMPONENT then
    match e.components tid with
    | none => .undefined
    | some c =>
      .returned (.expired_local c)
        { e with
          components := fun j => if j = tid then none else e.components j
          component_bitset := fun j => if j = tid then false else e.component_bitset j }
  else .undefined

/-- Result of `get_component`: whether the `LT_WARNING` log call of lines 260-264 was made,
and the reference returned at line 265. -/
structure Lookup (V : Type) where
  warning : Bool
  ref : Ref V

/-- Method `get_component<T>() const` (lines 256-266). -/
def Entity.get_component (e : Entity V) (tid : Nat) : Outcome Unit (Lookup V) :=
  if tid < MAX_COMPONENT then
    match e.components tid with
    | none => .returned { warning := true, ref := .null } ()
    | some c => .returned { warning := false, ref := .object c } ()
  else .undefined

/-- Method `has_component<T>()` (lines 269-273). -/
def Entity.has_component (e : Entity V) (tid : Nat) : Outcome Unit Bool :=
  if tid < MAX_COMPONENT then .returned (e.component_bitset tid) () else .undefined

/-- Class `EntityManager` (lines 296-399). The back of `empty_id` is the last list element. -/
structure EntityManager (V : Type) where
  next_id : Nat
  entities : List (Option (Entity V))
  empty_id : List Nat

/-- The manager built by `EntityManager()` (line 667): value-initialised, so `next_id` is
zero and both vectors are empty. -/
def EntityManager.fresh : EntityManager V :=
  { next_id := 0, entities := [], empty_id := [] }

/-- Loop of `update` (lines 314-328) over the slots still to visit; `seen` are the slots
already visited and `pool` is `empty_id`. At an inactive entity the id is pushed, the
slot is released, and the log message of line 324 then reads `e->id` through the
slot `e`, which is null by now. -/
def EntityManager.update_from (seen : List (Option (Entity V))) (pool : List Nat) :
    List (Option (Entity V)) → Option (List (Option (Entity V)) × List Nat)
  | [] => some (seen, pool)
  | none :: rest => update_from (seen ++ [none]) pool rest
  | some e :: rest =>
    if e.is_active then update_from (seen ++ [some e]) pool rest
    else
      let pool1 := pool ++ [e.id]
      let slot : Option (Entity V) := none
      match slot with
      | none => none
      | some _ => update_from (seen ++ [slot]) pool1 rest

/-- Method `update` (lines 312-329). -/
def EntityManager.update (s : EntityManager V) : Outcome (EntityManager V) Unit :=
  match update_from [] s.empty_id s.entities with
  | some (ents, pool) => .returned () { s with entities := ents, empty_id := pool }
  | none => .undefined

/-- Method `immediate_destroy` (lines 332-342): the id is pushed first, then
`entities.at(id)` is released (a range-checked access; releasing a null slot is a no-op). -/
def EntityManager.immediate_destroy (s : EntityManager V) (id : Nat) :
    Outcome (EntityManager V) Unit :=
  let s1 := { s with empty_id := s.empty_id ++ [id] }
  if id < s1.entities.length then
    .returned () { s1 with entities := s1.entities.set id none }
  else .thrown s1

/-- Method `add_entity` (lines 346-371). Returns the new entity; the reference handed to the
caller is the slot `new_id`. `next_id` is a `uint32_t`. -/
def EntityManager.add_entity (s : EntityManager V) : Outcome (EntityManager V) (Entity V) :=
  match s.empty_id.getLast? with
  | some new_id =>
    let s1 := { s with empty_id := s.empty_id.dropLast }
    let e : Entity V := Entity.construct new_id
    if new_id < s1.entities.length then
      .returned e { s1 with entities := s1.entities.set new_id (some e) }
    else .thrown s1
  | none =>
    let new_id := s.next_id
    let s1 := { s with next_id := (s.next_id + 1) % 4294967296 }
    let e : Entity V := Entity.construct new_id
    let s2 := { s1 with entities := s1.entities ++ [none] }
    if new_id < s2.entities.length then
      .returned e { s2 with entities := s2.entities.set new_id (some e) }
    else .thrown s2

/-- Expression `entities.at(id).get()`: `none` when `at` throws, otherwise the pointer,
which is null (`some none`) or points to the entity owned by slot `id`. -/
def EntityManager.at_get (s : EntityManager V) (id : Nat) : Option (Option Nat) :=
  match s.entities[id]? with
  | none => none
  | some none => some none
  | some (some _) => some (some id)

/-- Loop of `entity_filter()` (lines 378-382) over the slots still to visit. -/
def EntityManager.entity_filter_from (s : EntityManager V) :
    List (Option (Entity V)) → Outcome Unit (List (Option Nat))
  | [] => .returned [] ()
  | none :: rest => entity_filter_from s rest
  | some e :: rest =>
    match s.at_get e.id with
    | none => .thrown ()
    | some p =>
      match entity_filter_from s rest with
      | .returned ps _ => .returned (p :: ps) ()
      | .thrown _ => .thrown ()
      | .undefined => .undefined

/-- Method `entity_filter()` (lines 375-384); the `Entity*` elements of the container are
slot numbers or null. -/
def EntityManager.entity_filter (s : EntityManager V) : Outcome Unit (List (Option Nat)) :=
  s.entity_filter_from s.entities

/-- Loop of `entity_filter<T>()` (lines 391-396) over the slots still to visit. -/
def EntityManager.entity_filter_T_from (s : EntityManager V) (tid : Nat) :
    List (Option (Entity V)) → Outcome Unit (List (Option Nat))
  | [] => .returned [] ()
  | none :: rest => entity_filter_T_from s tid rest
  | some e :: rest =>
    match e.has_component tid with
    | .returned true _ =>
      match s.at_get e.id with
      | none => .thrown ()
      | some p =>
        match entity_filter_T_from s tid rest with
        | .returned ps _ => .returned (p :: ps) ()
        | .thrown _ => .thrown ()
        | .undefined => .undefined
    | .returned false _ => entity_filter_T_from s tid rest
    | .thrown _ => .thrown ()
    | .undefined => .undefined

/-- Method `entity_filter<T>()` of `EntityManager` (lines 387-398). -/
def EntityManager.entity_filter_T (s : EntityManager V) (tid : Nat) :
    Outcome Unit (List (Option Nat)) :=
  s.entity_filter_T_from tid s.entities

/-- Method `Entity::destroy(immediate)` (lines 403-407), called through a reference to the
entity owned by slot `i`. A reference to a slot that owns no entity is dangling. -/
def Entity.destroy (s : EntityManager V) (i : Nat) (immediate : Bool) :
    Outcome (EntityManager V) Unit :=
  match s.entities[i]? with
  | some (some e) =>
    let e1 := { e with active := false }
    let s1 := { s with entities := s.entities.set i (some e1) }
    if immediate then s1.immediate_destroy e1.id else .returned () s1
  | _ => .undefined

/-- A method of `Entity` run on the entity owned by slot `i`, its new state written back. -/
def EntityManager.on_entity {α : Type} (s : EntityManager V) (i : Nat)
    (f : Entity V → Outcome (Entity V) α) : Outcome (EntityManager V) α :=
  match s.entities[i]? with
  | some (some e) =>
    match f e with
    | .returned a e1 => .returned a { s with entities := s.entities.set i (some e1) }
    | .thrown e1 => .thrown { s with entities := s.entities.set i (some e1) }
    | .undefined => .undefined
  | _ => .undefined

/-- Calls a host program can make on a manager and on the entities it owns. -/
inductive Op (V : Type) where
  | add_entity : Op V
  | destroy (i : Nat) (immediate : Bool) : Op V
  | immediate_destroy (id : Nat) : Op V
  | update : Op V
  | add_component (i tid : Nat) (v : V) : Op V
  | remove_component (i tid : Nat) : Op V

/-- State after one call, when the program carries on. -/
def EntityManager.perform (s : EntityManager V) : Op V → Option (EntityManager V)
  | .add_entity => s.add_entity.continues
  | .destroy i immediate => (Entity.destroy s i immediate).continues
  | .immediate_destroy id => (s.immediate_destroy id).continues
  | .update => s.update.continues
  | .add_component i tid v => (s.on_entity i (fun e => e.add_component tid v)).continues
  | .remove_component i tid => (s.on_entity i (fun e => e.remove_component tid)).continues

/-- State after a sequence of calls. -/
def EntityManager.run (s : EntityManager V) : List (Op V) → Option (EntityManager V)
  | [] => some s
  | op :: ops => (s.perform op).bind (fun s1 => s1.run ops)

/-- Manager states reachable from the fresh manager. -/
def Reachable (s : EntityManager V) : Prop :=
  ∃ ops : List (Op V), EntityManager.fresh.run ops = some s

/-- Every entity of the table sits in the slot named by its id. -/
def IdIsIndex (l : List (Option (Entity V))) : Prop :=
  ∀ (i : Nat) (e : Entity V), l[i]? = some (some e) → e.id = i

/-- Slot `i` of the table owns an entity. -/
def EntityManager.live (s : EntityManager V) (i : Nat) : Bool :=
  match s.entities[i]? with
  | some (some _) => true
  | _ => false


/-- Calls that change the components of one entity. -/
inductive ComponentOp (V : Type) where
  | add_component (tid : Nat) (v : V) : ComponentOp V
  | remove_component (tid : Nat) : ComponentOp V

/-- Entity after one component call, when the program carries on. -/
def Entity.perform (e : Entity V) : ComponentOp V → Option (Entity V)
  | .add_component tid v => (e.add_component tid v).continues
  | .remove_component tid => (e.remove_component tid).continues

/-- Entity after a sequence of component calls. -/
def Entity.run (e : Entity V) : List (ComponentOp V) → Option (Entity V)
  | [] => some e
  | op :: ops => (e.perform op).bind (fun e1 => e1.run ops)

/-- Class `Event` (lines 441-465); the private back pointer `event_manager` is only set on
the events built by `emit`. -/
structure Event where
  id : Nat
  subscribers : List Nat
deriving DecidableEq

/-- Program-wide state outside the managers, with the event managers of the program.
`component_id T` and `event_id T` are the function-local statics `id` of
`get_component_type_id<T>` (line 143) and of `EventManager::get_event_id<T>` (line 488),
`none` until the first call; a static of a member function template is one object for
all `EventManager` instances. `subscribed s` is the vector `subscribed` of subscriber
`s` (line 434); `EventSubscriber*` values are numbers. `next_event_id m` and `events m`
are the members of event manager `m` (lines 473 and 478). -/
structure World (κ : Type) where
  next_component_id : Nat
  component_id : κ → Option Nat
  event_id : κ → Option Nat
  subscribed : Nat → List Nat
  next_event_id : Nat → Nat
  events : Nat → List (Option Event)

/-- State at program start: counters zero (lines 136 and 473), no static initialised, every
vector empty. -/
def World.fresh {κ : Type} : World κ :=
  { next_component_id := 0, component_id := fun _ => none, event_id := fun _ => none,
    subscribed := fun _ => [], next_event_id := fun _ => 0, events := fun _ => [] }

/-- What a call of `get_component_type_id<T>` hands back and whether it made its `LT_ERROR`
log call (lines 145-149). -/
structure TypeId where
  id : Nat
  error_logged : Bool
deriving DecidableEq

/-- Function `get_component_type_id<T>` (lines 140-152). The static is initialised from
`next_component_id++` (a `uint32_t`) on the first call for `T`; the test against
`MAX_COMPONENT` is made on every call and the id is returned in any case. -/
def get_component_type_id {κ : Type} [DecidableEq κ] (w : World κ) (T : κ) :
    TypeId × World κ :=
  match w.component_id T with
  | some id => ({ id := id, error_logged := decide (id > MAX_COMPONENT) }, w)
  | none =>
    let id := w.next_component_id
    ({ id := id, error_logged := decide (id > MAX_COMPONENT) },
     { w with
       next_component_id := (w.next_component_id + 1) % 4294967296
       component_id := fun U => if U = T then some id else w.component_id U })

/-- Method `EventManager::get_event_id<T>` (lines 485-490) called on manager `m`: the static
shared by all managers is initialised from the counter of the manager that makes the
first call for `T`. -/
def get_event_id {κ : Type} [DecidableEq κ] (w : World κ) (m : Nat) (T : κ) :
    Nat × World κ :=
  match w.event_id T with
  | some id => (id, w)
  | none =>
    let id := w.next_event_id m
    (id,
     { w with
       next_event_id := fun k => if k = m then (w.next_event_id m + 1) % 4294967296
         else w.next_event_id k
       event_id := fun U => if U = T then some id else w.event_id U })

/-- A request for a type id: of a component type, or of an event type on manager `m`. -/
inductive IdRequest (κ : Type) where
  | component (T : κ) : IdRequest κ
  | event (m : Nat) (T : κ) : IdRequest κ

/-- Results of the component requests of a sequence of requests, in call order. -/
def component_results {κ : Type} [DecidableEq κ] (w : World κ) :
    List (IdRequest κ) → List TypeId
  | [] => []
  | .component T :: rs =>
    (get_component_type_id w T).1 :: component_results (get_component_type_id w T).2 rs
  | .event m T :: rs => component_results (get_event_id w m T).2 rs

/-- Component types of a sequence of requests, in call order. -/
def requested_components {κ : Type} : List (IdRequest κ) → List κ
  | [] => []
  | .component T :: rs => T :: requested_components rs
  | .event _ _ :: rs => requested_components rs

/-- Distinct types of a sequence of calls in the order of their first call, continuing the
list `seen` of the types called before. -/
def first_call_order {κ : Type} [DecidableEq κ] (seen : List κ) : List κ → List κ
  | [] => seen
  | T :: ts => first_call_order (if T ∈ seen then seen else seen ++ [T]) ts

/-- Registry in which exactly the types of `seen` have been requested, first calls in that
order. -/
def RegistryAfter {κ : Type} [DecidableEq κ] (w : World κ) (seen : List κ) : Prop :=
  w.next_component_id = seen.length ∧ seen.Nodup ∧
  ∀ T, w.component_id T = if T ∈ seen then some (seen.indexOf T) else none

/-- Distinct component types of a sequence of requests, in the order of their first
request. -/
def component_order {κ : Type} [DecidableEq κ] (rs : List (IdRequest κ)) : List κ :=
  first_call_order [] (requested_components rs)

/-- Method `EventManager::add_event<T>` (lines 546-563) on manager `m`. -/
def add_event {κ : Type} [DecidableEq κ] (w : World κ) (m : Nat) (T : κ) :
    Outcome (World κ) Bool :=
  let w1 := (get_event_id w m T).2
  if (get_event_id w m T).1 < (w1.events m).length then .returned false w1
  else
    let id := (get_event_id w1 m T).1
    let w2 := (get_event_id w1 m T).2
    let ev : Event := { id := id, subscribers := [] }
    let w3 := { w2 with
      events := fun k => if k = m then w2.events m ++ [none] else w2.events k }
    if ev.id < (w3.events m).length then
      .returned true { w3 with
        events := fun k => if k = m then (w3.events m).set ev.id (some ev) else w3.events k }
    else .thrown w3

/-- Vector `subscribers` of the event in slot `id` of manager `m`, when that slot holds an
event. -/
def World.subscribers {κ : Type} (w : World κ) (m id : Nat) : Option (List Nat) :=
  match (w.events m)[id]? with
  | some (some ev) => some ev.subscribers
  | _ => none

/-- Method `EventManager::subscribe<T>` (lines 516-522) on manager `m` for subscriber `s`. -/
def subscribe {κ : Type} [DecidableEq κ] (w : World κ) (m : Nat) (T : κ) (s : Nat) :
    Outcome (World κ) Unit :=
  match add_event w m T with
  | .returned _ w1 =>
    let id := (get_event_id w1 m T).1
    let w2 := (get_event_id w1 m T).2
    match (w2.events m)[id]? with
    | none => .thrown w2
    | some none => .undefined
    | some (some ev) =>
      let w3 := { w2 with
        events := fun k =>
          if k = m then (w2.events m).set id (some { ev with subscribers := ev.subscribers ++ [s] })
          else w2.events k }
      let id1 := (get_event_id w3 m T).1
      let w4 := (get_event_id w3 m T).2
      .returned () { w4 with
        subscribed := fun x => if x = s then w4.subscribed s ++ [id1] else w4.subscribed x }
  | .thrown w1 => .thrown w1
  | .undefined => .undefined

/-- Method `EventManager::unsubscribe<T>` (lines 493-513) on manager `m` for subscriber `s`:
erase-remove of `s` from the subscribers of the slot, then of the id from the
`subscribed` vector of `s`. -/
def unsubscribe {κ : Type} [DecidableEq κ] (w : World κ) (m : Nat) (T : κ) (s : Nat) :
    Outcome (World κ) Unit :=
  match add_event w m T with
  | .returned _ w1 =>
    let id := (get_event_id w1 m T).1
    let w2 := (get_event_id w1 m T).2
    match (w2.events m)[id]? with
    | none => .thrown w2
    | some none => .undefined
    | some (some ev) =>
      .returned () { w2 with
        events := fun k =>
          if k = m then
            (w2.events m).set id (some { ev with subscribers := ev.subscribers.filter (· ≠ s) })
          else w2.events k
        subscribed := fun x =>
          if x = s then (w2.subscribed s).filter (· ≠ id) else w2.subscribed x }
  | .thrown w1 => .thrown w1
  | .undefined => .undefined

/-- One invocation of `receive`: the subscriber called and the stamps of the event built for
it by `emit` (lines 532-534). -/
structure Delivered where
  subscriber : Nat
  id : Nat
  event_manager : Nat
deriving DecidableEq

/-- Method `Event::is_event<T>` (lines 567-571) on a delivered event. -/
def is_event {κ : Type} [DecidableEq κ] (w : World κ) (ev : Delivered) (U : κ) :
    Bool × World κ :=
  (decide (ev.id = (get_event_id w ev.event_manager U).1),
   (get_event_id w ev.event_manager U).2)

/-- Calls that the body of a `receive` override makes, in the model: `is_event` on the event
received, and `subscribe` and `unsubscribe` on some manager. -/
inductive Call (κ : Type) where
  | is_event (U : κ) : Call κ
  | subscribe (m : Nat) (U : κ) (s : Nat) : Call κ
  | unsubscribe (m : Nat) (U : κ) (s : Nat) : Call κ

/-- One call of a `receive` body on the event `ev`. -/
def Call.perform {κ : Type} [DecidableEq κ] (w : World κ) (ev : Delivered) :
    Call κ → Outcome (World κ) Unit
  | .is_event U => .returned () (lecs.is_event w ev U).2
  | .subscribe m U s => lecs.subscribe w m U s
  | .unsubscribe m U s => lecs.unsubscribe w m U s

/-- Body of a `receive` override run on the event `ev`. The result tells whether a call has
inserted into or erased from the vector `subscribers` of slot `id` of manager `m`. -/
def receive_calls {κ : Type} [DecidableEq κ] (m id : Nat) (ev : Delivered) :
    List (Call κ) → World κ → Bool → Outcome (World κ) Bool
  | [], w, touched => .returned touched w
  | c :: cs, w, touched =>
    match c.perform w ev with
    | .returned _ w1 =>
      receive_calls m id ev cs w1
        (touched || decide (w1.subscribers m id ≠ w.subscribers m id))
    | .thrown w1 => .thrown w1
    | .undefined => .undefined

/-- Range-based `for` of `emit` (lines 530-536) over the subscribers still to visit, of the
vector in slot `id` of manager `m`. `recv s k` is the body of `receive` of subscriber `s`
for an event with id `k`. Inserting into or erasing from the vector that is being
iterated invalidates the iterators of the loop, so going on with the loop after such a
callback is undefined. -/
def emit_loop {κ : Type} [DecidableEq κ] (recv : Nat → Nat → List (Call κ)) (m : Nat) (T : κ)
    (id : Nat) : List Nat → World κ → Outcome (World κ) (List Delivered)
  | [], w => .returned [] w
  | sub :: rest, w =>
    let ev : Delivered :=
      { subscriber := sub, id := (get_event_id w m T).1, event_manager := m }
    match receive_calls m id ev (recv sub ev.id) (get_event_id w m T).2 false with
    | .returned touched w1 =>
      if touched then .undefined
      else
        match emit_loop recv m T id rest w1 with
        | .returned ds w2 => .returned (ev :: ds) w2
        | .thrown w2 => .thrown w2
        | .undefined => .undefined
    | .thrown w1 => .thrown w1
    | .undefined => .undefined

/-- Method `EventManager::emit<T>` (lines 526-543) on manager `m`; returns the invocations of
`receive` it made, in order. -/
def emit {κ : Type} [DecidableEq κ] (recv : Nat → Nat → List (Call κ)) (w : World κ) (m : Nat)
    (T : κ) : Outcome (World κ) (List Delivered) :=
  match add_event w m T with
  | .returned _ w1 =>
    let id := (get_event_id w1 m T).1
    let w2 := (get_event_id w1 m T).2
    match (w2.events m)[id]? with
    | none => .thrown w2
    | some none => .undefined
    | some (some ev) => emit_loop recv m T id ev.subscribers w2
  | .thrown w1 => .thrown w1
  | .undefined => .undefined

/-- Calls a host program makes on the event managers. -/
inductive EventOp (κ : Type) where
  | add_event (m : Nat) (T : κ) : EventOp κ
  | subscribe (m : Nat) (T : κ) (s : Nat) : EventOp κ
  | unsubscribe (m : Nat) (T : κ) (s : Nat) : EventOp κ
  | emit (m : Nat) (T : κ) : EventOp κ
  | is_event (ev : Delivered) (U : κ) : EventOp κ

/-- World after one call, when the program carries on. -/
def World.perform {κ : Type} [DecidableEq κ] (recv : Nat → Nat → List (Call κ)) (w : World κ) :
    EventOp κ → Option (World κ)
  | .add_event m T => (add_event w m T).continues
  | .subscribe m T s => (subscribe w m T s).continues
  | .unsubscribe m T s => (unsubscribe w m T s).continues
  | .emit m T => (emit recv w m T).continues
  | .is_event ev U => some (is_event w ev U).2

/-- World after a sequence of calls. -/
def World.run {κ : Type} [DecidableEq κ] (recv : Nat → Nat → List (Call κ)) (w : World κ) :
    List (EventOp κ) → Option (World κ)
  | [] => some w
  | op :: ops => (w.perform recv op).bind (fun w1 => w1.run recv ops)

/-- World after a sequence of calls made from program start; the fresh world itself when the
program does not get through the calls. -/
def World.after {κ : Type} [DecidableEq κ] (recv : Nat → Nat → List (Call κ))
    (ops : List (EventOp κ)) : World κ :=
  ((World.fresh (κ := κ)).run recv ops).getD World.fresh

/-- Value a call returns, when it returns. -/
def Outcome.result {σ α : Type} : Outcome σ α → Option α
  | .returned a _ => some a
  | .thrown _ => none
  | .undefined => none

/-- Whether a call ends by letting `std::out_of_range` escape. -/
def Outcome.throws {σ α : Type} : Outcome σ α → Bool
  | .returned _ _ => false
  | .thrown _ => true
  | .undefined => false

/-- Class `SystemManager` (lines 583-653): the two manager pointers handed to every system,
as addresses, and the systems in registration order, as numbers. -/
structure SystemManager where
  entity_manager : Nat
  event_manager : Nat
  systems : List Nat
deriving DecidableEq

/-- One invocation of `System::update`: the system called and the three arguments. -/
structure SystemCall where
  system : Nat
  entity_manager : Nat
  event_manager : Nat
  delta_time : Nat
deriving DecidableEq

/-- Method `add_system` (lines 601-643): every overload appends to `systems`. -/
def SystemManager.add_system (sm : SystemManager) (x : Nat) : SystemManager :=
  { sm with systems := sm.systems ++ [x] }

/-- The call `s->update(entity_manager, event_manager, delta_time)` of line 650 for system
`x`. -/
def SystemManager.invocation (sm : SystemManager) (delta_time x : Nat) : SystemCall :=
  { system := x, entity_manager := sm.entity_manager, event_manager := sm.event_manager,
    delta_time := delta_time }

/-- Loop of `SystemManager::update` (lines 648-651) over the systems still to call. `sys x dt`
is what the `update` override of system `x` does to the entity manager it is handed. -/
def SystemManager.update_from (sm : SystemManager)
    (sys : Nat → Nat → EntityManager V → Outcome (EntityManager V) Unit) (delta_time : Nat) :
    List Nat → EntityManager V → Outcome (EntityManager V) (List SystemCall)
  | [], s => .returned [] s
  | x :: rest, s =>
    match sys x delta_time s with
    | .returned _ s1 =>
      match update_from sm sys delta_time rest s1 with
      | .returned calls s2 =>
        .returned (sm.invocation delta_time x :: calls) s2
      | .thrown s2 => .thrown s2
      | .undefined => .undefined
    | .thrown s1 => .thrown s1
    | .undefined => .undefined

/-- Method `SystemManager::update` (lines 646-652), on the entity manager its pointer refers
to. -/
def SystemManager.update (sm : SystemManager)
    (sys : Nat → Nat → EntityManager V → Outcome (EntityManager V) Unit) (delta_time : Nat)
    (s : EntityManager V) : Outcome (EntityManager V) (List SystemCall) :=
  sm.update_from sys delta_time sm.systems s

/-- Class `ECSManagers` (lines 657-678); its event manager is a manager of the `World`. -/
structure ECSManagers (V : Type) where
  entity_manager : EntityManager V
  system_manager : SystemManager

/-- Constructor `ECSManagers()` (lines 665-670): a fresh entity manager and a system manager
without systems that points to the two sibling members, whose addresses are
`entity_manager` and `event_manager`. -/
def ECSManagers.construct (entity_manager event_manager : Nat) : ECSManagers V :=
  { entity_manager := EntityManager.fresh,
    system_manager :=
      { entity_manager := entity_manager, event_manager := event_manager, systems := [] } }

/-- Method `update_ecs_managers` (lines 673-677): the sweep, then the systems; returns the
invocations of `System::update` it made, in order. -/
def ECSManagers.update_ecs_managers (ecs : ECSManagers V)
    (sys : Nat → Nat → EntityManager V → Outcome (EntityManager V) Unit) (delta_time : Nat) :
    Outcome (ECSManagers V) (List SystemCall) :=
  match ecs.entity_manager.update with
  | .returned _ s1 =>
    match ecs.system_manager.update sys delta_time s1 with
    | .returned calls s2 => .returned calls { ecs with entity_manager := s2 }
    | .thrown s2 => .thrown { ecs with entity_manager := s2 }
    | .undefined => .undefined
  | .thrown s1 => .thrown { ecs with entity_manager := s1 }
  | .undefined => .undefined

/-- Method `EntityContainer::entity_filter<T>` (lines 410-423) on a container of manager `s`
whose vector `entities` is the given list of pointers. A pointer to a slot that owns no
entity is dangling. -/
def EntityContainer.entity_filter (s : EntityManager V) (tid : Nat) :
    List (Option Nat) → Outcome Unit (List (Option Nat))
  | [] => .returned [] ()
  | none :: rest => EntityContainer.entity_filter s tid rest
  | some i :: rest =>
    match s.entities[i]? with
    | some (some e) =>
      match e.has_component tid with
      | .returned true _ =>
        match s.at_get e.id with
        | none => .thrown ()
        | some p =>
          match EntityContainer.entity_filter s tid rest with
          | .returned ps _ => .returned (p :: ps) ()
          | .thrown _ => .thrown ()
          | .undefined => .undefined
      | .returned false _ => EntityContainer.entity_filter s tid rest
      | .thrown _ => .thrown ()
      | .undefined => .undefined
    | _ => .undefined

/-- Pointers to the live entities of the table (its non-empty slots), in table order, that
satisfy `p`. -/
def EntityManager.live_with (s : EntityManager V) (p : Entity V → Bool) : List (Option Nat) :=
  s.entities.enum.filterMap (fun io =>
    match io.2 with
    | some e => if p e then some (some io.1) else none
    | none => none)

/-- Whether the presence bit of component type `tid` is set on the entity a pointer of a
container of manager `s` refers to. -/
def EntityManager.carries (s : EntityManager V) (tid : Nat) : Option Nat → Bool
  | some i =>
    match s.entities[i]? with
    | some (some e) => e.component_bitset tid
    | _ => false
  | none => false

/-- Manager after a sequence of calls made on the fresh manager; the fresh manager itself
when the program does not get through the calls. -/
def EntityManager.after (ops : List (Op V)) : EntityManager V :=
  ((EntityManager.fresh (V := V)).run ops).getD EntityManager.fresh

/-- Calls that build three entities: entity 0 with components of types 1 and 2, entity 1
with a component of type 2, entity 2 with a component of type 1. -/
def three_entities : List (Op Nat) :=
  [.add_entity, .add_entity, .add_entity, .add_component 0 1 5, .add_component 0 2 6,
   .add_component 1 2 7, .add_component 2 1 8]

/-- State of event manager `m` and of the subscribers in a program that has used this one
manager only through calls that created every slot in step with the ids: the counter
is at most the length of the event vector, every id handed out indexes a slot, no slot
is null, and subscriber `S` occurs in the list of slot `j` as often as `j` occurs in the
`subscribed` vector of `S`. -/
def Bookkeeping {κ : Type} (w : World κ) (m : Nat) : Prop :=
  w.next_event_id m ≤ (w.events m).length ∧
  (∀ (T : κ) (id : Nat), w.event_id T = some id → id < (w.events m).length) ∧
  (∀ j, j < (w.events m).length → ∃ ev, (w.events m)[j]? = some (some ev)) ∧
  (∀ j S, ((w.subscribers m j).getD []).count S = (w.subscribed S).count j)

end lecs

namespace lio

/-- Modelled from the spec: class template `Vec2<T>` of `Vec2.hpp`, a file that is not
among the sources. A point with the public members `x` and `y` and the constructor
`Vec2(x, y)`, which is all that the parts of `LineSeg.hpp` embedded here use of it. -/
structure Vec2 (T : Type) where
  x : T
  y : T
deriving DecidableEq

/-- Class template `LineSeg<T>` (lines 9-340 of `LineSeg.hpp`): the two end points. -/
structure LineSeg (T : Type) where
  p1 : Vec2 T
  p2 : Vec2 T
deriving DecidableEq

/-- Constructor `LineSeg(x1, y1, x2, y2)` (line 18). -/
def LineSeg.construct {T : Type} (x1 y1 x2 y2 : T) : LineSeg T :=
  { p1 := { x := x1, y := y1 }, p2 := { x := x2, y := y2 } }

/-- Method `Set(x1, y1, x2, y2)` (lines 203-210): the four member assignments in the order
of the source, `p1.x = x1; p1.y = y1; p2.x = x2; p2.y = x2;`. -/
def LineSeg.Set {T : Type} (l : LineSeg T) (x1 y1 x2 _y2 : T) : LineSeg T :=
  let l1 : LineSeg T := { l with p1 := { l.p1 with x := x1 } }
  let l2 : LineSeg T := { l1 with p1 := { l1.p1 with y := y1 } }
  let l3 : LineSeg T := { l2 with p2 := { l2.p2 with x := x2 } }
  { l3 with p2 := { l3.p2 with y := x2 } }

/-- Loop of the first branch of `Plot` (lines 296-307), for a segment whose longer extent is
along `x`; `out` is the vector the points are appended to. The counter `i` of the
source is never read. -/
def LineSeg.plot_x (dx dy dx1 dy1 xe : Int) (x y px : Int) (out : List (Vec2 Int)) :
    List (Vec2 Int) :=
  if x < xe then
    if px < 0 then
      plot_x dx dy dx1 dy1 xe (x + 1) y (px + 2 * dy1) (out ++ [{ x := x + 1, y := y }])
    else
      if (dx < 0 ∧ dy < 0) ∨ (dx > 0 ∧ dy > 0) then
        plot_x dx dy dx1 dy1 xe (x + 1) (y + 1) (px + 2 * (dy1 - dx1))
          (out ++ [{ x := x + 1, y := y + 1 }])
      else
        plot_x dx dy dx1 dy1 xe (x + 1) (y - 1) (px + 2 * (dy1 - dx1))
          (out ++ [{ x := x + 1, y := y - 1 }])
  else out
termination_by (xe - x).toNat
decreasing_by all_goals omega

/-- Loop of the second branch of `Plot` (lines 318-329), for a segment whose longer extent is
along `y`. -/
def LineSeg.plot_y (dx dy dx1 dy1 ye : Int) (x y py : Int) (out : List (Vec2 Int)) :
    List (Vec2 Int) :=
  if y < ye then
    if py ≤ 0 then
      plot_y dx dy dx1 dy1 ye x (y + 1) (py + 2 * dx1) (out ++ [{ x := x, y := y + 1 }])
    else
      if (dx < 0 ∧ dy < 0) ∨ (dx > 0 ∧ dy > 0) then
        plot_y dx dy dx1 dy1 ye (x + 1) (y + 1) (py + 2 * (dx1 - dy1))
          (out ++ [{ x := x + 1, y := y + 1 }])
      else
        plot_y dx dy dx1 dy1 ye (x - 1) (y + 1) (py + 2 * (dx1 - dy1))
          (out ++ [{ x := x - 1, y := y + 1 }])
  else out
termination_by (ye - y).toNat
decreasing_by all_goals omega

/-- Method `Plot` of `LineSeg<int>` (lines 275-333): the vector `out` after the call, with
arithmetic on unbounded integers (no `int` overflow). `abs` is `Int.natAbs`. The iterator
the method returns, taken from `out.end()` before the insertions, is not modelled. -/
def LineSeg.Plot (l : LineSeg Int) (out : List (Vec2 Int)) : List (Vec2 Int) :=
  let x1 := l.p1.x
  let y1 := l.p1.y
  let x2 := l.p2.x
  let y2 := l.p2.y
  let dx := x2 - x1
  let dy := y2 - y1
  let dx1 : Int := dx.natAbs
  let dy1 : Int := dy.natAbs
  let px := 2 * dy1 - dx1
  let py := 2 * dx1 - dy1
  if dy1 ≤ dx1 then
    if dx ≥ 0 then
      LineSeg.plot_x dx dy dx1 dy1 x2 x1 y1 px (out ++ [{ x := x1, y := y1 }])
    else
      LineSeg.plot_x dx dy dx1 dy1 x1 x2 y2 px (out ++ [{ x := x2, y := y2 }])
  else
    if dy ≥ 0 then
      LineSeg.plot_y dx dy dx1 dy1 y2 x1 y1 py (out ++ [{ x := x1, y := y1 }])
    else
      LineSeg.plot_y dx dy dx1 dy1 y1 x2 y2 py (out ++ [{ x := x2, y := y2 }])

/-- Two consecutive points of a segment plotted along `x`: one step to the right, at most
one step up or down. -/
def StepX (p q : Vec2 Int) : Prop :=
  q.x = p.x + 1 ∧ q.y - p.y ≤ 1 ∧ p.y - q.y ≤ 1

/-- Two consecutive points of a segment plotted along `y`: one step up, at most one step to
the right or to the left. -/
def StepY (p q : Vec2 Int) : Prop :=
  q.y = p.y + 1 ∧ q.x - p.x ≤ 1 ∧ p.x - q.x ≤ 1

/-- Extent `p2.x - p1.x` of a segment along `x` (`dx` in `Plot`). -/
def LineSeg.dx (l : LineSeg Int) : Int := l.p2.x - l.p1.x

/-- Extent `p2.y - p1.y` of a segment along `y` (`dy` in `Plot`). -/
def LineSeg.dy (l : LineSeg Int) : Int := l.p2.y - l.p1.y

/-- Whether `x` is the major axis of a segment: the test `dy1 <= dx1` of line 287. -/
def LineSeg.along_x (l : LineSeg Int) : Prop := l.dy.natAbs ≤ l.dx.natAbs

/-- Deciding `along_x` is comparing two numbers. -/
instance (l : LineSeg Int) : Decidable l.along_x :=
  inferInstanceAs (Decidable (l.dy.natAbs ≤ l.dx.natAbs))

end lio

namespace lecs

variable {V : Type}

/-! ## Lemmas on the operations -/

/-- Method `add_component` never changes the id of the entity. -/
theorem add_component_id (e e1 : Entity V) (tid : Nat) (v : V) (r : Ref V)
    (h : e.add_component tid v = .returned r e1) : e1.id = e.id := by
  unfold Entity.add_component at h
  split at h
  · injection h with _ hs
    subst hs
    rfl
  · cases h

/-- The call `immediate_destroy(id)` returns exactly when `id` is below the table length,
whether or not the slot owns an entity; in every case the id ends up on the free pool. -/
theorem immediate_destroy_outcome (s : EntityManager V) (id : Nat) :
    (id < s.entities.length →
      s.immediate_destroy id
        = .returned () { s with entities := s.entities.set id none,
                                empty_id := s.empty_id ++ [id] }) ∧
    (¬ id < s.entities.length →
      s.immediate_destroy id = .thrown { s with empty_id := s.empty_id ++ [id] }) := by
  constructor <;> intro h <;> simp [EntityManager.immediate_destroy, h]

/-- The loop of `update` does not complete when a slot still to visit owns an inactive
entity. -/
theorem update_from_inactive (l : List (Option (Entity V))) :
    ∀ (seen : List (Option (Entity V))) (pool : List Nat) (e : Entity V),
      some e ∈ l → e.active = false → EntityManager.update_from seen pool l = none := by
  induction l with
  | nil => intro seen pool e he; simp at he
  | cons x rest ih =>
    intro seen pool e he hact
    cases x with
    | none =>
      have he1 : some e ∈ rest := by simpa using he
      simpa [EntityManager.update_from] using ih _ pool e he1 hact
    | some e0 =>
      by_cases h0 : e0.active = true
      · have he1 : some e ∈ rest := by
          rcases List.mem_cons.mp he with h | h
          · injection h with h
            subst h
            rw [hact] at h0
            cases h0
          · exact h
        simpa [EntityManager.update_from, Entity.is_active, h0] using ih _ pool e he1 hact
      · simp [EntityManager.update_from, Entity.is_active, h0]

/-- The loop of `update` over slots that own no inactive entity visits them all and
changes nothing. -/
theorem update_from_active (l : List (Option (Entity V))) :
    ∀ (seen : List (Option (Entity V))) (pool : List Nat),
      (∀ e, some e ∈ l → e.active = true) →
      EntityManager.update_from seen pool l = some (seen ++ l, pool) := by
  induction l with
  | nil => intro seen pool _; simp [EntityManager.update_from]
  | cons x rest ih =>
    intro seen pool hall
    have hrest : ∀ e, some e ∈ rest → e.active = true :=
      fun e he => hall e (List.mem_cons_of_mem _ he)
    cases x with
    | none => simp [EntityManager.update_from, ih _ pool hrest]
    | some e0 =>
      have h0 : e0.active = true := hall e0 (List.mem_cons_self _ _)
      simp [EntityManager.update_from, Entity.is_active, h0, ih _ pool hrest]

/-- Method `update` returns only from a table without inactive entity, and then leaves
the manager as it was; with an inactive entity in the table it is undefined. -/
theorem update_outcome (s : EntityManager V) :
    ((∀ e, some e ∈ s.entities → e.active = true) → s.update = .returned () s) ∧
    (∀ e, some e ∈ s.entities → e.active = false → s.update = .undefined) := by
  constructor
  · intro h
    simp [EntityManager.update, update_from_active s.entities [] s.empty_id h]
  · intro e he hact
    simp [EntityManager.update, update_from_inactive s.entities [] s.empty_id e he hact]

/-- Method `remove_component` on an occupied slot below `MAX_COMPONENT`: the slot and the bit
are cleared, every other slot and bit is kept, and the reference returned is to the
local copy of the removed component. -/
theorem remove_component_present (e : Entity V) (tid : Nat) (c : Component V)
    (h : tid < MAX_COMPONENT) (hc : e.components tid = some c) :
    ∃ e1, e.remove_component tid = .returned (.expired_local c) e1 ∧
      e1.components tid = none ∧ e1.component_bitset tid = false ∧
      e1.id = e.id ∧ e1.active = e.active ∧
      ∀ j, j ≠ tid →
        e1.components j = e.components j ∧ e1.component_bitset j = e.component_bitset j := by
  refine ⟨{ e with
      components := fun j => if j = tid then none else e.components j
      component_bitset := fun j => if j = tid then false else e.component_bitset j },
    ?_, ?_, ?_, rfl, rfl, ?_⟩
  · simp only [Entity.remove_component, if_pos h, hc]
  · simp
  · simp
  · intro j hj
    simp [hj]

/-- Method `remove_component` on an empty slot is undefined, whatever the presence bit. -/
theorem remove_component_absent (e : Entity V) (tid : Nat)
    (hc : e.components tid = none) : e.remove_component tid = .undefined := by
  unfold Entity.remove_component
  split
  · simp [hc]
  · rfl

/-- Method `add_entity` on a manager whose free pool ends in an id below the table length,
and on a manager with an empty free pool whose `next_id` is the table length. -/
theorem add_entity_outcome (s : EntityManager V) :
    (∀ (p : List Nat) (id : Nat), s.empty_id = p ++ [id] → id < s.entities.length →
      s.add_entity = .returned (Entity.construct id)
        { s with empty_id := p, entities := s.entities.set id (some (Entity.construct id)) }) ∧
    (s.empty_id = [] → s.next_id = s.entities.length →
      s.add_entity = .returned (Entity.construct s.entities.length)
        { next_id := (s.entities.length + 1) % 4294967296,
          entities := s.entities ++ [some (Entity.construct s.entities.length)],
          empty_id := [] }) := by
  constructor
  · intro p id hp hlt
    simp [EntityManager.add_entity, hp, hlt]
  · intro hp hn
    simp [EntityManager.add_entity, hp, hn]

/-- A property kept by every call is kept by every sequence of calls. -/
theorem run_preserves (P : EntityManager V → Prop)
    (hstep : ∀ s op s1, P s → s.perform op = some s1 → P s1) :
    ∀ (ops : List (Op V)) (s s1 : EntityManager V), P s → s.run ops = some s1 → P s1 := by
  intro ops
  induction ops with
  | nil =>
    intro s s1 hs h
    simp [EntityManager.run] at h
    subst h
    exact hs
  | cons op rest ih =>
    intro s s1 hs h
    simp only [EntityManager.run] at h
    cases hp : s.perform op with
    | none => simp [hp] at h
    | some s2 =>
      simp [hp] at h
      exact ih s2 s1 (hstep s op s2 hs hp) h

/-- Writing into slot `j` nothing, or an entity whose id is `j`, keeps `IdIsIndex`. -/
theorem IdIsIndex_set (l : List (Option (Entity V))) (j : Nat) (x : Option (Entity V))
    (hx : ∀ e, x = some e → e.id = j) (hl : IdIsIndex l) : IdIsIndex (l.set j x) := by
  intro i e he
  rw [List.getElem?_set] at he
  split at he
  · next hji =>
    split at he
    · injection he with he
      subst hji
      exact hx e he
    · cases he
  · exact hl i e he

/-- Growing the table by an empty slot keeps `IdIsIndex`. -/
theorem IdIsIndex_append_none (l : List (Option (Entity V))) (hl : IdIsIndex l) :
    IdIsIndex (l ++ [none]) := by
  intro i e he
  by_cases hi : i < l.length
  · rw [List.getElem?_append_left hi] at he
    exact hl i e he
  · rw [List.getElem?_append_right (Nat.le_of_not_lt hi)] at he
    cases hk : i - l.length with
    | zero => simp [hk] at he
    | succ k => simp [hk] at he

/-- Method `update`, when the caller carries on after it, has left the manager as it was. -/
theorem update_continues (s s1 : EntityManager V) (h : s.update.continues = some s1) :
    s1 = s := by
  by_cases hall : ∀ e, some e ∈ s.entities → e.active = true
  · rw [(update_outcome s).1 hall] at h
    simp [Outcome.continues] at h
    exact h.symm
  · push_neg at hall
    obtain ⟨e, he, hact⟩ := hall
    have hact1 : e.active = false := by simpa using hact
    rw [(update_outcome s).2 e he hact1] at h
    simp [Outcome.continues] at h

/-- Every call keeps `IdIsIndex`. -/
theorem perform_IdIsIndex (s : EntityManager V) (op : Op V) (s1 : EntityManager V)
    (hs : IdIsIndex s.entities) (hp : s.perform op = some s1) : IdIsIndex s1.entities := by
  cases op with
  | add_entity =>
    simp only [EntityManager.perform, EntityManager.add_entity] at hp
    split at hp
    · split at hp
      · simp only [Outcome.continues, Option.some.injEq] at hp
        subst hp
        exact IdIsIndex_set _ _ _ (fun e he => by injection he with he; subst he; rfl) hs
      · simp only [Outcome.continues, Option.some.injEq] at hp
        subst hp
        exact hs
    · split at hp
      · simp only [Outcome.continues, Option.some.injEq] at hp
        subst hp
        exact IdIsIndex_set _ _ _ (fun e he => by injection he with he; subst he; rfl)
          (IdIsIndex_append_none _ hs)
      · simp only [Outcome.continues, Option.some.injEq] at hp
        subst hp
        exact IdIsIndex_append_none _ hs
  | destroy i immediate =>
    simp only [EntityManager.perform, Entity.destroy] at hp
    split at hp
    · next e hi =>
      have hid : e.id = i := hs i e hi
      have h1 : IdIsIndex (s.entities.set i (some { e with active := false })) :=
        IdIsIndex_set _ _ _ (fun e1 he1 => by injection he1 with he1; subst he1; exact hid) hs
      cases immediate with
      | false =>
        simp only [Outcome.continues, Option.some.injEq, Bool.false_eq_true, if_false] at hp
        subst hp
        exact h1
      | true =>
        simp only [if_true, EntityManager.immediate_destroy] at hp
        split at hp
        · simp only [Outcome.continues, Option.some.injEq] at hp
          subst hp
          exact IdIsIndex_set _ _ _ (fun e1 he1 => by cases he1) h1
        · simp only [Outcome.continues, Option.some.injEq] at hp
          subst hp
          exact h1
    · simp [Outcome.continues] at hp
  | immediate_destroy id =>
    simp only [EntityManager.perform, EntityManager.immediate_destroy] at hp
    split at hp
    · simp only [Outcome.continues, Option.some.injEq] at hp
      subst hp
      exact IdIsIndex_set _ _ _ (fun e1 he1 => by cases he1) hs
    · simp only [Outcome.continues, Option.some.injEq] at hp
      subst hp
      exact hs
  | update =>
    simp only [EntityManager.perform] at hp
    rw [update_continues s s1 hp]
    exact hs
  | add_component i tid v =>
    simp only [EntityManager.perform, EntityManager.on_entity] at hp
    split at hp
    · next e hi =>
      have hid : e.id = i := hs i e hi
      split at hp
      · next a e1 hf =>
        simp only [Outcome.continues, Option.some.injEq] at hp
        subst hp
        exact IdIsIndex_set _ _ _
          (fun e2 he2 => by
            injection he2 with he2
            subst he2
            rw [add_component_id e e1 tid v a hf]
            exact hid) hs
      · next e1 hf =>
        simp only [Entity.add_component] at hf
        split at hf <;> cases hf
      · simp [Outcome.continues] at hp
    · simp [Outcome.continues] at hp
  | remove_component i tid =>
    simp only [EntityManager.perform, EntityManager.on_entity] at hp
    split at hp
    · next e hi =>
      have hid : e.id = i := hs i e hi
      split at hp
      · next a e1 hf =>
        simp only [Outcome.continues, Option.some.injEq] at hp
        subst hp
        refine IdIsIndex_set _ _ _ (fun e2 he2 => ?_) hs
        injection he2 with he2
        subst he2
        by_cases ht : tid < MAX_COMPONENT
        · cases hc : e.components tid with
          | none => rw [remove_component_absent e tid hc] at hf; cases hf
          | some c =>
            obtain ⟨e3, h3, -, -, h3id, -⟩ := remove_component_present e tid c ht hc
            rw [h3] at hf
            injection hf with _ hf
            subst hf
            rw [h3id]
            exact hid
        · simp [Entity.remove_component, ht] at hf
      · next e1 hf =>
        simp only [Entity.remove_component] at hf
        split at hf
        · split at hf <;> cases hf
        · cases hf
      · simp [Outcome.continues] at hp
    · simp [Outcome.continues] at hp

/-- In every reachable manager state, the live entity stored at table index `i` has
id `i`. -/
theorem reachable_IdIsIndex (s : EntityManager V) (h : Reachable s) : IdIsIndex s.entities := by
  obtain ⟨ops, hops⟩ := h
  refine run_preserves (fun s => IdIsIndex s.entities) ?_ ops EntityManager.fresh s ?_ hops
  · intro s op s1 hs hp
    exact perform_IdIsIndex s op s1 hs hp
  · intro i e he
    simp [EntityManager.fresh] at he

/-! ## Entity manager: claims C1 to C6 -/

/-- C2 (deferred destruction), evaluated on a reachable state. After `add_entity`,
`immediate_destroy(0)` twice and `add_entity`, slot 0 owns a live entity while the
free pool is `[0]`. After `destroy(false)` on that entity it is inactive and still
listed by `entity_filter()`, but its id is in the free pool and the next `add_entity`
returns an entity with the same id. -/
theorem deferred_destroy_id_reused :
    ∃ s0 s e B s1,
      (EntityManager.fresh (V := Unit)).run
          [.add_entity, .immediate_destroy 0, .immediate_destroy 0, .add_entity] = some s0 ∧
      s0.live 0 = true ∧
      Entity.destroy s0 0 false = .returned () s ∧
      s.entities[0]? = some (some e) ∧ e.is_active = false ∧
      s.entity_filter = .returned [some 0] () ∧
      e.id ∈ s.empty_id ∧
      s.add_entity = .returned B s1 ∧ B.id = e.id :=
  ⟨{ next_id := 1, entities := [some (Entity.construct 0)], empty_id := [0] },
   { next_id := 1, entities := [some { (Entity.construct 0) with active := false }],
     empty_id := [0] },
   { (Entity.construct 0) with active := false },
   Entity.construct 0,
   { next_id := 1, entities := [some (Entity.construct 0)], empty_id := [] },
   rfl, rfl, rfl, rfl, rfl, rfl, by decide, rfl, rfl⟩

/-- C3 (sweep), evaluated on a reachable state. After `add_entity` and `destroy(false)` on
the new entity, slot 0 owns an inactive entity and `update` does not complete: once
the slot is released, the log message reads the id through the null slot. -/
theorem update_inactive_undefined :
    ∃ s e,
      (EntityManager.fresh (V := Unit)).run [.add_entity, .destroy 0 false] = some s ∧
      s.entities[0]? = some (some e) ∧ e.is_active = false ∧
      s.update = .undefined ∧ s.update.continues = none :=
  ⟨{ next_id := 1, entities := [some { (Entity.construct 0) with active := false }],
     empty_id := [] },
   { (Entity.construct 0) with active := false }, rfl, rfl, rfl, rfl, rfl⟩

/-- C4 (`immediate_destroy` on an id that is not live), evaluated on reachable states.
On a slot emptied by an earlier destruction the call returns normally and pushes the
id a second time; beyond the end of the table `std::out_of_range` is thrown, after the
id has already been pushed onto the free pool. -/
theorem immediate_destroy_not_live :
    ∃ s s1 s2,
      (EntityManager.fresh (V := Unit)).run [.add_entity, .immediate_destroy 0] = some s ∧
      s.live 0 = false ∧
      s.immediate_destroy 0 = .returned () s1 ∧ s1.empty_id = [0, 0] ∧
      s.live 7 = false ∧
      s.immediate_destroy 7 = .thrown s2 ∧ s2.empty_id = [0, 7] :=
  ⟨{ next_id := 1, entities := [none], empty_id := [0] },
   { next_id := 1, entities := [none], empty_id := [0, 0] },
   { next_id := 1, entities := [none], empty_id := [0, 7] },
   rfl, rfl, rfl, rfl, rfl, rfl, rfl⟩

/-- C5 (manager invariant), evaluated on a reachable state. After `add_entity`,
`immediate_destroy(0)` twice and `add_entity`, id 0 is in the free pool and slot 0
owns a live entity, whose id is 0. -/
theorem free_pool_holds_live_id :
    ∃ s e,
      (EntityManager.fresh (V := Unit)).run
          [.add_entity, .immediate_destroy 0, .immediate_destroy 0, .add_entity] = some s ∧
      0 ∈ s.empty_id ∧ s.live 0 = true ∧
      s.entities[0]? = some (some e) ∧ e.id = 0 :=
  ⟨{ next_id := 1, entities := [some (Entity.construct 0)], empty_id := [0] },
   Entity.construct 0, rfl, by decide, rfl, rfl, rfl⟩

/-- C6 (`add_entity`), evaluated on a reachable state. A caller that survives the
`std::out_of_range` of `immediate_destroy(5)` on the fresh manager holds a manager
whose free pool is `[5]`; its next `add_entity` pops 5 and the lookup
`entities.at(5)` is out of range, so no entity is returned. -/
theorem add_entity_out_of_range :
    ∃ s s1,
      (EntityManager.fresh (V := Unit)).immediate_destroy 5 = .thrown s ∧
      (EntityManager.fresh (V := Unit)).run [.immediate_destroy 5] = some s ∧
      s.empty_id = [5] ∧ s.entities.length = 0 ∧
      s.add_entity = .thrown s1 ∧ s1.empty_id = [] :=
  ⟨{ next_id := 0, entities := [], empty_id := [5] },
   { next_id := 0, entities := [], empty_id := [] },
   rfl, rfl, rfl, rfl, rfl, rfl⟩


/-! ## Entity and its components: claims C7 to C10 -/

/-- C7 as stated fails on a newly constructed entity: component type 0 is absent, yet
`get_component` returns to its caller (after one warning log call) instead of
signalling an error. -/
theorem get_component_absent_no_error :
    (Entity.construct 0 : Entity Unit).components 0 = none ∧
    (Entity.construct 0 : Entity Unit).get_component 0
      = .returned { warning := true, ref := .null } () ∧
    (Entity.construct 0 : Entity Unit).get_component 0 ≠ .thrown () := by
  refine ⟨rfl, rfl, ?_⟩
  intro h
  cases h

/-- C7 amended. For a component type below `MAX_COMPONENT` whose slot is empty,
`get_component` signals no error: it returns after one `LT_WARNING` log call, and the
reference it returns is formed from the null slot pointer, so that no component can be
read through it. The slot is empty on every newly constructed entity and after every
`remove_component` of that type that returns. -/
theorem get_component_absent (tid : Nat) (h : tid < MAX_COMPONENT) :
    (∀ e : Entity V, e.components tid = none →
      ∃ r, e.get_component tid = .returned r () ∧
        r.warning = true ∧ r.ref = .null ∧ r.ref.read = none) ∧
    (∀ id : Nat, (Entity.construct id : Entity V).components tid = none) ∧
    (∀ (e e1 : Entity V) (r : Ref V),
      e.remove_component tid = .returned r e1 → e1.components tid = none) := by
  refine ⟨?_, fun _ => rfl, ?_⟩
  · intro e he
    exact ⟨{ warning := true, ref := .null }, by simp [Entity.get_component, h, he],
      rfl, rfl, rfl⟩
  · intro e e1 r hr
    unfold Entity.remove_component at hr
    rw [if_pos h] at hr
    split at hr
    · cases hr
    · injection hr with _ hs
      subst hs
      simp

/-- Witness of the amended C7 at component type 0. -/
theorem get_component_absent_witness :
    0 < MAX_COMPONENT ∧
    ((∀ e : Entity Nat, e.components 0 = none →
      ∃ r, e.get_component 0 = .returned r () ∧
        r.warning = true ∧ r.ref = .null ∧ r.ref.read = none) ∧
    (∀ id : Nat, (Entity.construct id : Entity Nat).components 0 = none) ∧
    (∀ (e e1 : Entity Nat) (r : Ref Nat),
      e.remove_component 0 = .returned r e1 → e1.components 0 = none)) :=
  ⟨by decide, get_component_absent 0 (by decide)⟩

/-- C9 (`remove_component` on a present component), evaluated on entity 4 carrying a
component of type 2 with value 9. The slot and the presence bit are cleared, but what
the call returns is a reference to its own local copy, which no longer exists once the
call has returned: the removed value cannot be read through it. -/
theorem remove_component_returns_expired :
    ∃ r1 e1 e2,
      (Entity.construct 4 : Entity Nat).add_component 2 9 = .returned r1 e1 ∧
      e1.has_component 2 = .returned true () ∧
      e1.components 2 = some { entity := 4, value := 9 } ∧
      e1.remove_component 2 = .returned (.expired_local { entity := 4, value := 9 }) e2 ∧
      (Ref.expired_local { entity := 4, value := 9 } : Ref Nat).read = none ∧
      e2.components 2 = none ∧ e2.has_component 2 = .returned false () :=
  ⟨_, _, _, rfl, rfl, rfl, rfl, rfl, rfl, rfl⟩

/-- C10 (`remove_component` on an absent component), evaluated on a newly constructed
entity: `has_component` is false for type 0 and `remove_component` copies from the
null slot pointer, which is undefined behaviour, not an error result. -/
theorem remove_component_absent_undefined :
    (Entity.construct 0 : Entity Unit).has_component 0 = .returned false () ∧
    (Entity.construct 0 : Entity Unit).components 0 = none ∧
    (Entity.construct 0 : Entity Unit).remove_component 0 = .undefined ∧
    (Entity.construct 0 : Entity Unit).remove_component 0 ≠ .thrown (Entity.construct 0) := by
  refine ⟨rfl, rfl, rfl, ?_⟩
  intro h
  cases h

/-! ## Presence bits: claim C11 -/

/-- One component call keeps the agreement of presence bits and slots. -/
theorem perform_presence (e e1 : Entity V) (op : ComponentOp V)
    (he : ∀ i, e.component_bitset i = true ↔ (e.components i).isSome = true)
    (h : e.perform op = some e1) :
    ∀ i, e1.component_bitset i = true ↔ (e1.components i).isSome = true := by
  cases op with
  | add_component tid v =>
    simp only [Entity.perform, Entity.add_component] at h
    split at h
    · simp only [Outcome.continues, Option.some.injEq] at h
      subst h
      intro i
      by_cases hi : i = tid
      · simp [hi]
      · simpa [hi] using he i
    · simp [Outcome.continues] at h
  | remove_component tid =>
    simp only [Entity.perform, Entity.remove_component] at h
    split at h
    · split at h
      · simp [Outcome.continues] at h
      · simp only [Outcome.continues, Option.some.injEq] at h
        subst h
        intro i
        by_cases hi : i = tid
        · simp [hi]
        · simpa [hi] using he i
    · simp [Outcome.continues] at h

/-- C11 (presence invariant). In every entity state reached from a newly constructed
entity by a sequence of `add_component` and `remove_component` calls, for every index
below `MAX_COMPONENT` the presence bit is set if and only if the slot holds a
component. -/
theorem presence_invariant (id : Nat) (ops : List (ComponentOp V)) (e : Entity V)
    (h : (Entity.construct id : Entity V).run ops = some e) (i : Nat)
    (_hi : i < MAX_COMPONENT) :
    e.component_bitset i = true ↔ (e.components i).isSome = true := by
  have key : ∀ (ops : List (ComponentOp V)) (e0 e1 : Entity V),
      (∀ i, e0.component_bitset i = true ↔ (e0.components i).isSome = true) →
      e0.run ops = some e1 →
      ∀ i, e1.component_bitset i = true ↔ (e1.components i).isSome = true := by
    intro ops
    induction ops with
    | nil =>
      intro e0 e1 h0 hr
      simp only [Entity.run, Option.some.injEq] at hr
      subst hr
      exact h0
    | cons op rest ih =>
      intro e0 e1 h0 hr
      simp only [Entity.run] at hr
      cases hp : e0.perform op with
      | none => simp [hp] at hr
      | some e2 =>
        simp only [hp, Option.some_bind] at hr
        exact ih e2 e1 (perform_presence e0 e2 op h0 hp) hr
  exact key ops _ e (by intro i; simp [Entity.construct]) h i

/-- Witness of C11: entity 0 after adding types 1 and 2 and removing type 1, looked at in
slot 1. -/
theorem presence_invariant_witness :
    ∃ e : Entity Nat,
      (Entity.construct 0 : Entity Nat).run
        [.add_component 1 10, .add_component 2 20, .remove_component 1] = some e ∧
      1 < MAX_COMPONENT ∧
      (e.component_bitset 1 = true ↔ (e.components 1).isSome = true) ∧
      e.component_bitset 2 = true ∧ e.component_bitset 1 = false :=
  ⟨{ active := true,
     components := fun j => if j = 1 then none else
       if j = 2 then some { entity := 0, value := 20 } else
       if j = 1 then some { entity := 0, value := 10 } else none,
     component_bitset := fun j => if j = 1 then false else
       if j = 2 then true else if j = 1 then true else false,
     id := 0 },
   rfl, by decide,
   presence_invariant 0 [.add_component 1 10, .add_component 2 20, .remove_component 1] _
     rfl 1 (by decide),
   rfl, rfl⟩

/-! ## Type identity registry: claims C12 and C13 -/

/-- Requests for component types only ask for exactly those types. -/
theorem requested_components_map {κ : Type} (ts : List κ) :
    requested_components (ts.map IdRequest.component) = ts := by
  induction ts with
  | nil => rfl
  | cons T ts ih => simp [requested_components, ih]

section Registry

variable {κ : Type} [DecidableEq κ]

/-- The first-call order extends the types seen before. -/
theorem first_call_order_prefix (ts : List κ) :
    ∀ seen : List κ, ∃ l, first_call_order seen ts = seen ++ l := by
  induction ts with
  | nil => intro seen; exact ⟨[], by simp [first_call_order]⟩
  | cons T ts ih =>
    intro seen
    simp only [first_call_order]
    by_cases h : T ∈ seen
    · simpa [h] using ih seen
    · obtain ⟨l, hl⟩ := ih (seen ++ [T])
      exact ⟨T :: l, by simp [h, hl]⟩

/-- The first-call order has no repetition. -/
theorem first_call_order_nodup (ts : List κ) :
    ∀ seen : List κ, seen.Nodup → (first_call_order seen ts).Nodup := by
  induction ts with
  | nil => intro seen h; simpa [first_call_order] using h
  | cons T ts ih =>
    intro seen hs
    simp only [first_call_order]
    by_cases h : T ∈ seen
    · simpa [h] using ih seen hs
    · simp only [h, if_false]
      apply ih
      rw [List.nodup_append]
      refine ⟨hs, List.nodup_singleton T, ?_⟩
      intro a ha hb
      simp only [List.mem_singleton] at hb
      subst hb
      exact h ha

/-- The first-call order holds exactly the types seen before and the types called. -/
theorem first_call_order_mem (ts : List κ) :
    ∀ (seen : List κ) (T : κ), T ∈ first_call_order seen ts ↔ T ∈ seen ∨ T ∈ ts := by
  induction ts with
  | nil => intro seen T; simp [first_call_order]
  | cons U ts ih =>
    intro seen T
    simp only [first_call_order]
    by_cases h : U ∈ seen
    · simp only [h, if_true, ih, List.mem_cons]
      constructor
      · rintro (h1 | h1)
        · exact Or.inl h1
        · exact Or.inr (Or.inr h1)
      · rintro (h1 | h1 | h1)
        · exact Or.inl h1
        · subst h1; exact Or.inl h
        · exact Or.inr h1
    · simp only [h, if_false, ih, List.mem_append, List.mem_singleton, List.mem_cons]
      tauto

/-- Without repeated calls the first-call order is the call order. -/
theorem first_call_order_of_nodup (ts : List κ) :
    ∀ seen : List κ, (seen ++ ts).Nodup → first_call_order seen ts = seen ++ ts := by
  induction ts with
  | nil => intro seen _; simp [first_call_order]
  | cons T ts ih =>
    intro seen h
    have hT : T ∉ seen := by
      intro hmem
      rw [List.nodup_append] at h
      exact h.2.2 hmem (List.mem_cons_self _ _)
    simp only [first_call_order, hT, if_false]
    rw [ih (seen ++ [T]) (by simpa using h)]
    simp

/-- Position of a type already seen in the first-call order. -/
theorem indexOf_first_call_order (ts seen : List κ) (T : κ) (h : T ∈ seen) :
    (first_call_order seen ts).indexOf T = seen.indexOf T := by
  obtain ⟨l, hl⟩ := first_call_order_prefix ts seen
  rw [hl, List.indexOf_append_of_mem h]

/-- A request for an event id leaves the component registry as it is. -/
theorem get_event_id_component (w : World κ) (m : Nat) (T : κ) :
    (get_event_id w m T).2.component_id = w.component_id ∧
    (get_event_id w m T).2.next_component_id = w.next_component_id := by
  unfold get_event_id
  split <;> exact ⟨rfl, rfl⟩

/-- Results of the component requests of a sequence, from a registry in which the types of
`seen` were requested before. -/
theorem component_results_eq (rs : List (IdRequest κ)) :
    ∀ (w : World κ) (seen : List κ), RegistryAfter w seen →
      (first_call_order seen (requested_components rs)).length < 4294967296 →
      component_results w rs
        = (requested_components rs).map (fun T =>
            { id := (first_call_order seen (requested_components rs)).indexOf T,
              error_logged := decide
                ((first_call_order seen (requested_components rs)).indexOf T
                  > MAX_COMPONENT) }) := by
  induction rs with
  | nil => intro w seen _ _; simp [component_results, requested_components]
  | cons r rs ih =>
    intro w seen hw hlen
    cases r with
    | event m T =>
      simp only [component_results, requested_components]
      apply ih _ seen _ hlen
      obtain ⟨h1, h2⟩ := get_event_id_component w m T
      exact ⟨by rw [h2]; exact hw.1, hw.2.1, by rw [h1]; exact hw.2.2⟩
    | component T =>
      simp only [component_results, requested_components, first_call_order, List.map_cons] at hlen ⊢
      by_cases hT : T ∈ seen
      · have hid : w.component_id T = some (seen.indexOf T) := by rw [hw.2.2 T, if_pos hT]
        simp only [hT, if_true] at hlen ⊢
        have hg : get_component_type_id w T
            = ({ id := seen.indexOf T,
                 error_logged := decide (seen.indexOf T > MAX_COMPONENT) }, w) := by
          simp [get_component_type_id, hid]
        rw [hg, ih w seen hw hlen, indexOf_first_call_order _ _ _ hT]
      · have hid : w.component_id T = none := by rw [hw.2.2 T, if_neg hT]
        simp only [hT, if_false] at hlen ⊢
        have hlen1 : seen.length + 1 < 4294967296 := by
          obtain ⟨l, hl⟩ := first_call_order_prefix (requested_components rs) (seen ++ [T])
          rw [hl] at hlen
          simp only [List.length_append, List.length_singleton] at hlen
          omega
        have hTin : T ∈ seen ++ [T] := by simp
        have hidx : (seen ++ [T]).indexOf T = seen.length := by
          rw [List.indexOf_append_of_not_mem hT]
          simp
        have hw1 : RegistryAfter
            { w with
              next_component_id := (w.next_component_id + 1) % 4294967296
              component_id := fun U => if U = T then some w.next_component_id
                else w.component_id U } (seen ++ [T]) := by
          refine ⟨?_, ?_, ?_⟩
          · simp only [hw.1, List.length_append, List.length_singleton]
            exact Nat.mod_eq_of_lt hlen1
          · rw [List.nodup_append]
            refine ⟨hw.2.1, List.nodup_singleton T, ?_⟩
            intro a ha hb
            simp only [List.mem_singleton] at hb
            subst hb
            exact hT ha
          · intro U
            by_cases hU : U = T
            · subst hU
              simp [hidx, hw.1]
            · by_cases hUs : U ∈ seen
              · simp [hU, hUs, hw.2.2 U, List.indexOf_append_of_mem hUs]
              · simp [hU, hUs, hw.2.2 U]
        have hg : get_component_type_id w T
            = ({ id := w.next_component_id,
                 error_logged := decide (w.next_component_id > MAX_COMPONENT) },
               { w with
                 next_component_id := (w.next_component_id + 1) % 4294967296
                 component_id := fun U => if U = T then some w.next_component_id
                   else w.component_id U }) := by
          simp [get_component_type_id, hid]
        rw [hg, ih _ (seen ++ [T]) hw1 hlen, indexOf_first_call_order _ _ _ hTin, hidx, hw.1]

/-- The fresh world is a registry in which no type has been requested. -/
theorem registryAfter_fresh : RegistryAfter (World.fresh (κ := κ)) [] :=
  ⟨rfl, List.nodup_nil, fun _ => rfl⟩

/-- In a list without repetition every element sits at its own position. -/
theorem map_indexOf_of_nodup (ts : List κ) (h : ts.Nodup) :
    ts.map (fun T => ts.indexOf T) = List.range ts.length := by
  apply List.ext_getElem
  · simp
  · intro k h1 h2
    simp only [List.getElem_map, List.getElem_range]
    exact List.indexOf_getElem h k (by simpa using h1)

/-- C12 as stated fails: from the fresh registry, 33 distinct component types requested in
turn all receive an id. The 33rd call returns 32, which is `MAX_COMPONENT`, and not even
an error log call is made. -/
theorem capacity_not_refused :
    component_results (World.fresh (κ := Nat)) ((List.range 33).map IdRequest.component)
      = (List.range 33).map (fun k => { id := k, error_logged := false }) ∧
    (component_results (World.fresh (κ := Nat))
        ((List.range 33).map IdRequest.component))[32]?
      = some { id := MAX_COMPONENT, error_logged := false } := by
  constructor <;> decide

/-- C12 amended. From the fresh registry, distinct component types (fewer than 2^32)
requested in turn always receive an id: the type requested in position `k` receives
`k`, so that the first `MAX_COMPONENT` types receive `0` to `MAX_COMPONENT - 1`, every
further type receives the next unused number, and no id is given twice. No call
refuses; the one reaction to an id beyond the capacity is an error log call, made for
every id above `MAX_COMPONENT` and for no id below it. -/
theorem type_id_beyond_capacity (ts : List κ) (hd : ts.Nodup)
    (hl : ts.length < 4294967296) :
    (component_results World.fresh (ts.map IdRequest.component)).map TypeId.id
      = List.range ts.length ∧
    ∀ r ∈ component_results World.fresh (ts.map IdRequest.component),
      (MAX_COMPONENT < r.id → r.error_logged = true) ∧
      (r.id < MAX_COMPONENT → r.error_logged = false) := by
  have horder : first_call_order [] ts = ts := by
    simpa using first_call_order_of_nodup ts [] (by simpa using hd)
  have hres := component_results_eq (ts.map IdRequest.component) World.fresh []
    registryAfter_fresh (by rw [requested_components_map, horder]; exact hl)
  rw [requested_components_map, horder] at hres
  constructor
  · rw [hres, List.map_map]
    exact map_indexOf_of_nodup ts hd
  · intro r hr
    rw [hres] at hr
    obtain ⟨T, -, hT⟩ := List.mem_map.mp hr
    subst hT
    constructor
    · intro h; simpa using h
    · intro h
      simp only [decide_eq_false_iff_not, not_lt]
      exact Nat.le_of_lt h

/-- Witness of the amended C12: 35 distinct types requested in turn receive 0 to 34. The
ids 32, 33 and 34 lie at or beyond the capacity; the calls that return 33 and 34 make
the error log call, the calls that return 31 and 32 do not. -/
theorem type_id_beyond_capacity_witness :
    (List.range 35).Nodup ∧ (List.range 35).length < 4294967296 ∧
    ((component_results (World.fresh (κ := Nat))
        ((List.range 35).map IdRequest.component)).map TypeId.id
      = List.range (List.range 35).length ∧
    ∀ r ∈ component_results (World.fresh (κ := Nat))
        ((List.range 35).map IdRequest.component),
      (MAX_COMPONENT < r.id → r.error_logged = true) ∧
      (r.id < MAX_COMPONENT → r.error_logged = false)) ∧
    (component_results (World.fresh (κ := Nat))
        ((List.range 35).map IdRequest.component)).drop 31
      = [{ id := 31, error_logged := false }, { id := 32, error_logged := false },
         { id := 33, error_logged := true }, { id := 34, error_logged := true }] ∧
    (∃ r ∈ component_results (World.fresh (κ := Nat))
        ((List.range 35).map IdRequest.component),
      MAX_COMPONENT < r.id ∧ r.error_logged = true) :=
  ⟨by decide, by decide,
   type_id_beyond_capacity (List.range 35) (by decide) (by decide),
   by decide,
   ⟨{ id := 33, error_logged := true }, by decide, by decide, rfl⟩⟩

/-- C13 (component type ids). For every sequence of requests from the fresh registry with
fewer than 2^32 distinct component types, each request for a component type returns the
position of that type in the order of first requests: the `k`-th distinct type has id
`k`, a repeated request returns the same id, and two distinct requested types have
distinct ids. A repeated call changes nothing in any registry, and a request for an
event id changes no component id in any registry. -/
theorem type_ids_first_call_order (rs : List (IdRequest κ))
    (h : (component_order rs).length < 4294967296) :
    (component_results World.fresh rs).map TypeId.id
      = (requested_components rs).map (fun T => (component_order rs).indexOf T) ∧
    (∀ T, T ∈ component_order rs ↔ T ∈ requested_components rs) ∧
    (∀ (k : Nat) (hk : k < (component_order rs).length),
      (component_order rs).indexOf ((component_order rs).get ⟨k, hk⟩) = k) ∧
    (∀ T U, T ∈ requested_components rs → U ∈ requested_components rs →
      (component_order rs).indexOf T = (component_order rs).indexOf U → T = U) ∧
    (∀ (w : World κ) (T : κ),
      get_component_type_id (get_component_type_id w T).2 T
        = ((get_component_type_id w T).1, (get_component_type_id w T).2)) ∧
    (∀ (w : World κ) (m : Nat) (T : κ),
      (get_event_id w m T).2.component_id = w.component_id ∧
      (get_event_id w m T).2.next_component_id = w.next_component_id) := by
  have hmem : ∀ T, T ∈ component_order rs ↔ T ∈ requested_components rs := by
    intro T
    simp [component_order, first_call_order_mem]
  have hnd : (component_order rs).Nodup := first_call_order_nodup _ [] List.nodup_nil
  refine ⟨?_, hmem, ?_, ?_, ?_, get_event_id_component⟩
  · rw [component_results_eq rs World.fresh [] registryAfter_fresh h, List.map_map]
    rfl
  · intro k hk
    exact List.indexOf_getElem hnd k hk
  · intro T U hT hU hTU
    exact (List.indexOf_inj ((hmem T).2 hT) ((hmem U).2 hU)).1 hTU
  · intro w T
    unfold get_component_type_id
    cases hc : w.component_id T with
    | some id => simp [hc]
    | none => simp [hc]

/-- Witness of C13: component types 5, 7 and again 5 are requested, with an event id request
in between; the ids returned are 0, 1 and 0. -/
theorem type_ids_first_call_order_witness :
    (component_order
      [IdRequest.component 5, .event 0 9, .component 7, .component 5]).length < 4294967296 ∧
    (component_results (World.fresh (κ := Nat))
        [.component 5, .event 0 9, .component 7, .component 5]).map TypeId.id
      = (requested_components
          [IdRequest.component 5, .event 0 9, .component 7, .component 5]).map
          (fun T => (component_order
            [IdRequest.component 5, .event 0 9, .component 7, .component 5]).indexOf T) ∧
    (component_results (World.fresh (κ := Nat))
        [.component 5, .event 0 9, .component 7, .component 5]).map TypeId.id = [0, 1, 0] :=
  ⟨by decide,
   (type_ids_first_call_order
      [IdRequest.component 5, .event 0 9, .component 7, .component 5] (by decide)).1,
   by decide⟩

end Registry

/-! ## Event manager: claims C14 to C18 -/

section Events

variable {κ : Type} [DecidableEq κ]

/-- A type whose static is initialised keeps its event id, and the call changes nothing. -/
theorem get_event_id_of_some (w : World κ) (m : Nat) (T : κ) (id : Nat)
    (h : w.event_id T = some id) : get_event_id w m T = (id, w) := by
  simp [get_event_id, h]

/-- A request for an event id touches no event vector and no subscriber. -/
theorem get_event_id_events (w : World κ) (m : Nat) (T : κ) :
    (get_event_id w m T).2.events = w.events ∧
    (get_event_id w m T).2.subscribed = w.subscribed := by
  unfold get_event_id
  split <;> exact ⟨rfl, rfl⟩

/-- After a request the static of the type holds the id that was returned. -/
theorem get_event_id_assigned (w : World κ) (m : Nat) (T : κ) :
    (get_event_id w m T).2.event_id T = some (get_event_id w m T).1 := by
  unfold get_event_id
  split
  · next id h => exact h
  · simp

/-- A request for some type leaves the initialised static of any type as it is. -/
theorem get_event_id_keeps (w : World κ) (m : Nat) (T U : κ) (id : Nat)
    (h : w.event_id T = some id) : (get_event_id w m U).2.event_id T = some id := by
  unfold get_event_id
  split
  · exact h
  · next hU =>
    have hne : T ≠ U := by
      intro hTU
      subst hTU
      rw [h] at hU
      cases hU
    simp [hne, h]

/-- A request for type `T` changes the static of no other type. -/
theorem get_event_id_other (w : World κ) (m : Nat) (T U : κ) (h : U ≠ T) :
    (get_event_id w m T).2.event_id U = w.event_id U := by
  unfold get_event_id
  split
  · rfl
  · simp [h]

/-- What `add_event` does when it returns: with result `false` the slot index was in range
and no vector changed, with result `true` the id was the length of the event vector and a
new event without subscribers was appended. -/
theorem add_event_returned (w w1 : World κ) (m : Nat) (T : κ) (b : Bool)
    (h : add_event w m T = .returned b w1) :
    w1.event_id T = some (get_event_id w m T).1 ∧
    (∀ U, U ≠ T → w1.event_id U = w.event_id U) ∧
    w1.subscribed = w.subscribed ∧
    (∀ k, k ≠ m → w1.events k = w.events k) ∧
    ((b = false ∧ (get_event_id w m T).1 < (w.events m).length ∧
        w1.events m = w.events m) ∨
     (b = true ∧ (get_event_id w m T).1 = (w.events m).length ∧
        w1.events m
          = w.events m ++ [some { id := (get_event_id w m T).1, subscribers := [] }])) := by
  have hev := get_event_id_events w m T
  have has := get_event_id_assigned w m T
  have h2 : get_event_id (get_event_id w m T).2 m T
      = ((get_event_id w m T).1, (get_event_id w m T).2) :=
    get_event_id_of_some _ m T _ has
  simp only [add_event, h2, if_true] at h
  split at h
  · next hlt =>
    injection h with hb hw
    subst hb; subst hw
    rw [hev.1] at hlt
    refine ⟨has, fun U hU => get_event_id_other w m T U hU, hev.2, ?_, Or.inl ⟨rfl, hlt, ?_⟩⟩
    · intro k _; rw [hev.1]
    · rw [hev.1]
  · next hge =>
    by_cases hlt : (get_event_id w m T).1 < ((get_event_id w m T).2.events m ++ [none]).length
    · rw [if_pos hlt] at h
      injection h with hb hw
      subst hb; subst hw
      rw [hev.1] at hge
      simp only [List.length_append, List.length_singleton, hev.1] at hlt
      have hid : (get_event_id w m T).1 = (w.events m).length := by omega
      refine ⟨has, fun U hU => get_event_id_other w m T U hU, hev.2, ?_, Or.inr ⟨rfl, hid, ?_⟩⟩
      · intro k hk; simp [hk, hev.1]
      · simp only [if_true, hev.1]
        rw [hid]
        simp
    · rw [if_neg hlt] at h
      cases h

/-- Subscriber vectors after `add_event` returned: the slot of the type holds the
subscribers it held before, none when it is new, and every other slot is untouched. -/
theorem add_event_slot (w w1 : World κ) (m : Nat) (T : κ) (b : Bool)
    (h : add_event w m T = .returned b w1) :
    (∀ ev, (w1.events m)[(get_event_id w m T).1]? = some (some ev) →
      ev.subscribers = (w.subscribers m (get_event_id w m T).1).getD []) ∧
    (∀ j, j ≠ (get_event_id w m T).1 → w1.subscribers m j = w.subscribers m j) := by
  obtain ⟨-, -, -, -, hcase⟩ := add_event_returned w w1 m T b h
  rcases hcase with ⟨-, -, hev⟩ | ⟨-, hid, hev⟩
  · constructor
    · intro ev hslot
      rw [hev] at hslot
      simp [World.subscribers, hslot]
    · intro j _
      simp [World.subscribers, hev]
  · constructor
    · intro ev hslot
      rw [hev, hid] at hslot
      simp at hslot
      subst hslot
      simp [World.subscribers, hid]
    · intro j hj
      rw [hid] at hj
      simp only [World.subscribers, hev]
      by_cases hlt : j < (w.events m).length
      · rw [List.getElem?_append_left hlt]
      · have hgt : (w.events m).length < j := by omega
        rw [List.getElem?_eq_none (by simp; omega), List.getElem?_eq_none (by omega)]

/-- Subscriber vectors after the event in slot `id` of manager `m` was replaced. -/
theorem subscribers_set {κ : Type} (w : World κ) (m id : Nat) (ev ev1 : Event)
    (evs : Nat → List (Option Event))
    (h : (w.events m)[id]? = some (some ev))
    (hevs : evs = fun k => if k = m then (w.events m).set id (some ev1) else w.events k) :
    ({ w with events := evs } : World κ).subscribers m id = some ev1.subscribers ∧
    (∀ j, j ≠ id → ({ w with events := evs } : World κ).subscribers m j = w.subscribers m j) ∧
    (∀ k, k ≠ m → evs k = w.events k) := by
  subst hevs
  have hlt : id < (w.events m).length := by
    by_contra hge
    rw [List.getElem?_eq_none (by omega)] at h
    cases h
  refine ⟨?_, ?_, ?_⟩
  · simp [World.subscribers, hlt]
  · intro j hj
    simp [World.subscribers, List.getElem?_set, Ne.symm hj]
  · intro k hk
    simp [hk]

/-- What `subscribe` does when it returns: the subscriber is appended to the vector of the
slot of the type (empty when the slot is new), the id of the type is appended to the
`subscribed` vector of the subscriber, and nothing else changes. -/
theorem subscribe_returned (w w1 : World κ) (m : Nat) (T : κ) (s : Nat)
    (h : subscribe w m T s = .returned () w1) :
    w1.event_id T = some (get_event_id w m T).1 ∧
    w1.subscribers m (get_event_id w m T).1
      = some ((w.subscribers m (get_event_id w m T).1).getD [] ++ [s]) ∧
    w1.subscribed s = w.subscribed s ++ [(get_event_id w m T).1] ∧
    (∀ x, x ≠ s → w1.subscribed x = w.subscribed x) ∧
    (∀ j, j ≠ (get_event_id w m T).1 → w1.subscribers m j = w.subscribers m j) ∧
    (∀ k, k ≠ m → w1.events k = w.events k) := by
  unfold subscribe at h
  cases ha : add_event w m T with
  | thrown wa => rw [ha] at h; cases h
  | undefined => rw [ha] at h; cases h
  | returned b wa =>
    rw [ha] at h
    obtain ⟨hid, -, hsub, hother, -⟩ := add_event_returned w wa m T b ha
    obtain ⟨hslot, hslots⟩ := add_event_slot w wa m T b ha
    have hg := get_event_id_of_some wa m T _ hid
    simp only [hg] at h
    split at h
    · cases h
    · cases h
    · next ev hev =>
      have hset := subscribers_set wa m (get_event_id w m T).1 ev
        { ev with subscribers := ev.subscribers ++ [s] } _ hev rfl
      have hg3 := get_event_id_of_some
        ({ wa with
            events := fun k =>
              if k = m then
                (wa.events m).set (get_event_id w m T).1
                  (some { ev with subscribers := ev.subscribers ++ [s] })
              else wa.events k } : World κ) m T _ hid
      simp only [hg3] at h
      injection h with _ hw
      subst hw
      refine ⟨hid, ?_, ?_, ?_, ?_, ?_⟩
      · exact hset.1.trans (by rw [← hslot ev hev])
      · simp [hsub]
      · intro x hx
        simp [hx, hsub]
      · intro j hj
        exact (hset.2.1 j hj).trans (hslots j hj)
      · intro k hk
        exact (hset.2.2 k hk).trans (hother k hk)

/-- What `unsubscribe` does when it returns: every occurrence of the subscriber is removed
from the vector of the slot of the type, every occurrence of the id of the type is removed
from the `subscribed` vector of the subscriber, what remains keeps its order, and nothing
else changes. -/
theorem unsubscribe_returned (w w1 : World κ) (m : Nat) (T : κ) (s : Nat)
    (h : unsubscribe w m T s = .returned () w1) :
    w1.event_id T = some (get_event_id w m T).1 ∧
    w1.subscribers m (get_event_id w m T).1
      = some (((w.subscribers m (get_event_id w m T).1).getD []).filter (· ≠ s)) ∧
    w1.subscribed s = (w.subscribed s).filter (· ≠ (get_event_id w m T).1) ∧
    (∀ x, x ≠ s → w1.subscribed x = w.subscribed x) ∧
    (∀ j, j ≠ (get_event_id w m T).1 → w1.subscribers m j = w.subscribers m j) ∧
    (∀ k, k ≠ m → w1.events k = w.events k) ∧
    (∀ U, U ≠ T → w1.event_id U = w.event_id U) := by
  unfold unsubscribe at h
  cases ha : add_event w m T with
  | thrown wa => rw [ha] at h; cases h
  | undefined => rw [ha] at h; cases h
  | returned b wa =>
    rw [ha] at h
    obtain ⟨hid, hids, hsub, hother, -⟩ := add_event_returned w wa m T b ha
    obtain ⟨hslot, hslots⟩ := add_event_slot w wa m T b ha
    have hg := get_event_id_of_some wa m T _ hid
    simp only [hg] at h
    split at h
    · cases h
    · cases h
    · next ev hev =>
      have hset := subscribers_set wa m (get_event_id w m T).1 ev
        { ev with subscribers := ev.subscribers.filter (· ≠ s) } _ hev rfl
      injection h with _ hw
      subst hw
      refine ⟨hid, ?_, ?_, ?_, ?_, ?_, hids⟩
      · exact hset.1.trans (by rw [← hslot ev hev])
      · simp [hsub]
      · intro x hx
        simp [hx, hsub]
      · intro j hj
        exact (hset.2.1 j hj).trans (hslots j hj)
      · intro k hk
        exact (hset.2.2 k hk).trans (hother k hk)

/-- A `receive` body that only calls `is_event` returns, touches no subscriber vector and
no `subscribed` vector, and leaves every initialised static as it is. -/
theorem receive_calls_is_event (m id : Nat) (ev : Delivered) (cs : List (Call κ))
    (h : ∀ c ∈ cs, ∃ U, c = Call.is_event U) :
    ∀ (w : World κ) (touched : Bool),
      ∃ w1, receive_calls m id ev cs w touched = .returned touched w1 ∧
        w1.events = w.events ∧ w1.subscribed = w.subscribed ∧
        ∀ (T : κ) (k : Nat), w.event_id T = some k → w1.event_id T = some k := by
  induction cs with
  | nil => intro w touched; exact ⟨w, rfl, rfl, rfl, fun _ _ hk => hk⟩
  | cons c cs ih =>
    intro w touched
    obtain ⟨U, hU⟩ := h c (List.mem_cons_self _ _)
    subst hU
    have hev := get_event_id_events w ev.event_manager U
    obtain ⟨w1, h1, h2, h3, h4⟩ :=
      ih (fun c hc => h c (List.mem_cons_of_mem _ hc)) (get_event_id w ev.event_manager U).2
        touched
    refine ⟨w1, ?_, h2.trans hev.1, h3.trans hev.2, ?_⟩
    · simp only [receive_calls, Call.perform, is_event, World.subscribers, hev.1]
      simpa using h1
    · intro T k hk
      exact h4 T k (get_event_id_keeps w ev.event_manager T U k hk)

/-- The loop of `emit` with `receive` bodies that only call `is_event`: every subscriber of
the list is invoked once, in list order, with an event stamped with the id of the type. -/
theorem emit_loop_is_event (recv : Nat → Nat → List (Call κ)) (m : Nat) (T : κ) (id tid : Nat)
    (hrecv : ∀ s k, ∀ c ∈ recv s k, ∃ U, c = Call.is_event U) (L : List Nat) :
    ∀ w : World κ, w.event_id T = some tid →
      ∃ w1, emit_loop recv m T id L w
          = .returned (L.map (fun s => { subscriber := s, id := tid, event_manager := m })) w1 ∧
        w1.events = w.events ∧ w1.subscribed = w.subscribed := by
  induction L with
  | nil => intro w _; exact ⟨w, rfl, rfl, rfl⟩
  | cons s rest ih =>
    intro w hw
    have hg := get_event_id_of_some w m T tid hw
    obtain ⟨w1, h1, h2, h3, h4⟩ :=
      receive_calls_is_event m id { subscriber := s, id := tid, event_manager := m }
        (recv s tid) (hrecv s tid) w false
    obtain ⟨w2, h5, h6, h7⟩ := ih w1 (h4 T tid hw)
    refine ⟨w2, ?_, h6.trans h2, h7.trans h3⟩
    simp only [emit_loop, hg, h1, h5, List.map_cons]
    simp

/-- Whenever the loop of `emit` returns, the subscribers it invoked are exactly the entries
of the list it started with, in order. -/
theorem emit_loop_subscribers (recv : Nat → Nat → List (Call κ)) (m : Nat) (T : κ) (id : Nat)
    (L : List Nat) :
    ∀ (w w1 : World κ) (ds : List Delivered),
      emit_loop recv m T id L w = .returned ds w1 → ds.map Delivered.subscriber = L := by
  induction L with
  | nil =>
    intro w w1 ds h
    simp only [emit_loop] at h
    injection h with h _
    subst h
    rfl
  | cons s rest ih =>
    intro w w1 ds h
    simp only [emit_loop] at h
    split at h
    · next touched w2 _ =>
      split at h
      · cases h
      · split at h
        · next ds1 w3 hrec =>
          injection h with h _
          subst h
          simp [ih w2 w3 ds1 hrec]
        · cases h
        · cases h
    · cases h
    · cases h

/-- Whenever `emit` returns, the subscribers it invoked are exactly the entries that the
vector of the slot of the type held at the start, in order. -/
theorem emit_subscribers (recv : Nat → Nat → List (Call κ)) (w w1 : World κ) (m : Nat) (T : κ)
    (ds : List Delivered) (h : emit recv w m T = .returned ds w1) :
    ds.map Delivered.subscriber = (w.subscribers m (get_event_id w m T).1).getD [] := by
  unfold emit at h
  cases ha : add_event w m T with
  | thrown wa => rw [ha] at h; cases h
  | undefined => rw [ha] at h; cases h
  | returned b wa =>
    rw [ha] at h
    obtain ⟨hid, -⟩ := add_event_returned w wa m T b ha
    obtain ⟨hslot, -⟩ := add_event_slot w wa m T b ha
    have hg := get_event_id_of_some wa m T _ hid
    simp only [hg] at h
    split at h
    · cases h
    · cases h
    · next ev hev =>
      rw [emit_loop_subscribers recv m T _ _ _ _ _ h, hslot ev hev]

/-- In a world where the type has an id and the slot of that id holds an event,
`unsubscribe` returns. -/
theorem unsubscribe_returns (w : World κ) (m : Nat) (E : κ) (S id : Nat) (L : List Nat)
    (hid : w.event_id E = some id) (hL : w.subscribers m id = some L) :
    ∃ w1, unsubscribe w m E S = .returned () w1 := by
  have hg := get_event_id_of_some w m E id hid
  have hslot : ∃ ev, (w.events m)[id]? = some (some ev) := by
    simp only [World.subscribers] at hL
    split at hL
    · next ev hev => exact ⟨ev, hev⟩
    · cases hL
  obtain ⟨ev, hev⟩ := hslot
  have hlt : id < (w.events m).length := by
    by_contra hge
    rw [List.getElem?_eq_none (by omega)] at hev
    cases hev
  have ha : add_event w m E = .returned false w := by
    simp [add_event, hg, hlt]
  simp only [unsubscribe, ha, hg, hev]
  exact ⟨_, rfl⟩

/-- Delivery order of `emit` with `receive` bodies that only inspect the event with
`is_event`: for every event type `E` that has id `id` and
whose slot holds subscriber list `L`, `emit<E>` returns after invoking `receive` once for
each entry of `L`, in list order, each time with an event stamped with `id`, so that a
subscriber occurring `k` times in `L` is invoked `k` times. Hence, after `S1` and then
`S2` subscribed to an event type `E` not used before, one `emit<E>` invokes `S1` and then
`S2`, once each. -/
theorem emit_delivery_order (recv : Nat → Nat → List (Call κ))
    (hrecv : ∀ s k, ∀ c ∈ recv s k, ∃ U, c = Call.is_event U) :
    (∀ (w : World κ) (m : Nat) (E : κ) (id : Nat) (L : List Nat),
      w.event_id E = some id → w.subscribers m id = some L →
      ∃ ds w1, emit recv w m E = .returned ds w1 ∧
        ds = L.map (fun s => { subscriber := s, id := id, event_manager := m }) ∧
        ds.map Delivered.subscriber = L ∧
        (∀ s, (ds.map Delivered.subscriber).count s = L.count s) ∧
        w1.events = w.events ∧ w1.subscribed = w.subscribed) ∧
    (∀ (w w1 w2 : World κ) (m : Nat) (E : κ) (s1 s2 : Nat),
      w.event_id E = none → w.subscribers m (w.next_event_id m) = none →
      subscribe w m E s1 = .returned () w1 → subscribe w1 m E s2 = .returned () w2 →
      ∃ w3, emit recv w2 m E
        = .returned [{ subscriber := s1, id := w.next_event_id m, event_manager := m },
                     { subscriber := s2, id := w.next_event_id m, event_manager := m }] w3) := by
  have part1 : ∀ (w : World κ) (m : Nat) (E : κ) (id : Nat) (L : List Nat),
      w.event_id E = some id → w.subscribers m id = some L →
      ∃ w1, emit recv w m E
          = .returned (L.map (fun s => { subscriber := s, id := id, event_manager := m })) w1 ∧
        w1.events = w.events ∧ w1.subscribed = w.subscribed := by
    intro w m E id L hid hL
    have hg := get_event_id_of_some w m E id hid
    have hslot : ∃ ev, (w.events m)[id]? = some (some ev) ∧ ev.subscribers = L := by
      simp only [World.subscribers] at hL
      split at hL
      · next ev hev =>
        injection hL with hL
        exact ⟨ev, hev, hL⟩
      · cases hL
    obtain ⟨ev, hev, hevL⟩ := hslot
    have hlt : id < (w.events m).length := by
      by_contra hge
      rw [List.getElem?_eq_none (by omega)] at hev
      cases hev
    have ha : add_event w m E = .returned false w := by
      simp [add_event, hg, hlt]
    obtain ⟨w1, h1, h2, h3⟩ := emit_loop_is_event recv m E id id hrecv L w hid
    refine ⟨w1, ?_, h2, h3⟩
    simp only [emit, ha, hg, hev, hevL]
    exact h1
  constructor
  · intro w m E id L hid hL
    obtain ⟨w1, h1, h2, h3⟩ := part1 w m E id L hid hL
    refine ⟨_, w1, h1, rfl, ?_, ?_, h2, h3⟩
    · simp [List.map_map, Function.comp_def]
    · intro s
      simp [List.map_map, Function.comp_def]
  · intro w w1 w2 m E s1 s2 hfresh hslot hs1 hs2
    have hg : (get_event_id w m E).1 = w.next_event_id m := by
      simp [get_event_id, hfresh]
    obtain ⟨hid1, hL1, -⟩ := subscribe_returned w w1 m E s1 hs1
    rw [hg] at hid1 hL1
    rw [hslot] at hL1
    have hg1 := get_event_id_of_some w1 m E _ hid1
    obtain ⟨hid2, hL2, -⟩ := subscribe_returned w1 w2 m E s2 hs2
    rw [hg1] at hid2 hL2
    simp only at hid2 hL2
    rw [hL1] at hL2
    obtain ⟨w3, h3, -⟩ := part1 w2 m E _ _ hid2 hL2
    exact ⟨w3, by simpa using h3⟩

/-- Delivery order evaluated: subscribers 100 and 101 subscribed, in that order, to event
type 7 on manager 0 of a fresh program; `receive` bodies call `is_event<8>`. -/
theorem emit_delivery_order_witness :
    (∀ s k : Nat, ∀ c ∈ (fun (_ _ : Nat) => [Call.is_event (8 : Nat)]) s k,
      ∃ U, c = Call.is_event U) ∧
    (World.after (κ := Nat) (fun _ _ => [])
      [.subscribe 0 7 100, .subscribe 0 7 101]).event_id 7 = some 0 ∧
    (World.after (κ := Nat) (fun _ _ => [])
      [.subscribe 0 7 100, .subscribe 0 7 101]).subscribers 0 0 = some [100, 101] ∧
    (∃ ds w1,
      emit (fun _ _ => [Call.is_event 8])
        (World.after (κ := Nat) (fun _ _ => []) [.subscribe 0 7 100, .subscribe 0 7 101]) 0 7
        = .returned ds w1 ∧
      ds = [100, 101].map (fun s => { subscriber := s, id := 0, event_manager := 0 }) ∧
      ds.map Delivered.subscriber = [100, 101] ∧
      (∀ s, (ds.map Delivered.subscriber).count s = [100, 101].count s) ∧
      w1.events = (World.after (κ := Nat) (fun _ _ => [])
        [.subscribe 0 7 100, .subscribe 0 7 101]).events ∧
      w1.subscribed = (World.after (κ := Nat) (fun _ _ => [])
        [.subscribe 0 7 100, .subscribe 0 7 101]).subscribed) :=
  ⟨fun _ _ c hc => ⟨8, by simpa using hc⟩, rfl, rfl,
   (emit_delivery_order (fun _ _ => [Call.is_event (8 : Nat)])
      (fun _ _ c hc => ⟨8, by simpa using hc⟩)).1
      (World.after (κ := Nat) (fun _ _ => []) [.subscribe 0 7 100, .subscribe 0 7 101])
      0 7 0 [100, 101] rfl rfl⟩

/-- Effect of `unsubscribe` slot by slot and id by id. In a world where `E` has an id whose
slot on manager `m` holds an event, `unsubscribe<E>(S)` returns. Whenever it returns, with `id` the id of
`E`: the subscriber list of the slot is the former list without its occurrences of `S`,
the others in their former order, so a following `emit<E>` that returns has not invoked
`S`; the `subscribed` vector of `S` is the former one without its occurrences of `id`;
every other slot of the manager, every other manager, the `subscribed` vector of every
other subscriber, the id of every other type and the occurrences of every other id in
the `subscribed` vector of `S` are unchanged. -/
theorem unsubscribe_symmetric (w : World κ) (m : Nat) (E : κ) (S : Nat) :
    (∀ id L, w.event_id E = some id → w.subscribers m id = some L →
      ∃ w1, unsubscribe w m E S = .returned () w1) ∧
    (∀ w1, unsubscribe w m E S = .returned () w1 →
      ∃ id L, w1.event_id E = some id ∧ w1.subscribers m id = some L ∧
        S ∉ L ∧ L = ((w.subscribers m id).getD []).filter (· ≠ S) ∧
        id ∉ w1.subscribed S ∧ w1.subscribed S = (w.subscribed S).filter (· ≠ id) ∧
        (∀ (recv : Nat → Nat → List (Call κ)) ds w2,
          emit recv w1 m E = .returned ds w2 → ∀ d ∈ ds, d.subscriber ≠ S) ∧
        (∀ j, j ≠ id → w1.subscribers m j = w.subscribers m j ∧
          (w1.subscribed S).count j = (w.subscribed S).count j) ∧
        (∀ x, x ≠ S → w1.subscribed x = w.subscribed x) ∧
        (∀ k, k ≠ m → w1.events k = w.events k) ∧
        (∀ U, U ≠ E → w1.event_id U = w.event_id U)) := by
  constructor
  · intro id L hid hL
    exact unsubscribe_returns w m E S id L hid hL
  · intro w1 h
    obtain ⟨hid, hL, hsub, hsubs, hslots, hother, hids⟩ := unsubscribe_returned w w1 m E S h
    refine ⟨_, _, hid, hL, ?_, rfl, ?_, hsub, ?_, ?_, hsubs, hother, hids⟩
    · simp [List.mem_filter]
    · rw [hsub]
      simp [List.mem_filter]
    · intro recv ds w2 hemit d hd
      have hds := emit_subscribers recv w1 w2 m E ds hemit
      rw [get_event_id_of_some w1 m E _ hid, hL] at hds
      simp only [Option.getD_some] at hds
      intro hS
      have hmem : d.subscriber ∈ ds.map Delivered.subscriber := List.mem_map_of_mem _ hd
      rw [hds, hS] at hmem
      simp [List.mem_filter] at hmem
    · intro j hj
      refine ⟨hslots j hj, ?_⟩
      rw [hsub, List.count_filter]
      simpa using hj

/-- Effect of `unsubscribe` evaluated on one manager: subscribers 100, 101 and again 100
subscribed to event type 7 on manager 0, subscriber 100 also to event type 9; then
`unsubscribe<7>(100)`. -/
theorem unsubscribe_symmetric_witness :
    (World.after (κ := Nat) (fun _ _ => [])
      [.subscribe 0 7 100, .subscribe 0 7 101, .subscribe 0 9 100, .subscribe 0 7 100]).event_id 7
      = some 0 ∧
    (World.after (κ := Nat) (fun _ _ => [])
      [.subscribe 0 7 100, .subscribe 0 7 101, .subscribe 0 9 100,
       .subscribe 0 7 100]).subscribers 0 0 = some [100, 101, 100] ∧
    (World.after (κ := Nat) (fun _ _ => [])
      [.subscribe 0 7 100, .subscribe 0 7 101, .subscribe 0 9 100,
       .subscribe 0 7 100]).subscribed 100 = [0, 1, 0] ∧
    (∃ w1, unsubscribe (World.after (κ := Nat) (fun _ _ => [])
        [.subscribe 0 7 100, .subscribe 0 7 101, .subscribe 0 9 100, .subscribe 0 7 100])
        0 7 100 = .returned () w1 ∧
      w1.subscribers 0 0 = some [101] ∧ w1.subscribed 100 = [1] ∧
      w1.subscribers 0 1 = some [100]) := by
  refine ⟨rfl, rfl, rfl, ?_⟩
  obtain ⟨w1, h1⟩ := (unsubscribe_symmetric
    (World.after (κ := Nat) (fun _ _ => [])
      [.subscribe 0 7 100, .subscribe 0 7 101, .subscribe 0 9 100, .subscribe 0 7 100])
    0 7 100).1 0 [100, 101, 100] rfl rfl
  obtain ⟨id, L, hid, hL, -, hLeq, -, hsub, -, hoth, -⟩ := (unsubscribe_symmetric
    (World.after (κ := Nat) (fun _ _ => [])
      [.subscribe 0 7 100, .subscribe 0 7 101, .subscribe 0 9 100, .subscribe 0 7 100])
    0 7 100).2 w1 h1
  have hid0 : id = 0 := by
    have hu := (unsubscribe_returned _ w1 0 7 100 h1).1
    rw [hid] at hu
    injection hu
  subst hid0
  refine ⟨w1, h1, ?_, ?_, ?_⟩
  · rw [hL, hLeq]
    rfl
  · rw [hsub]
    rfl
  · rw [(hoth 1 (by decide)).1]
    rfl

/-- C14 (event delivery order), evaluated on a reachable state with two event managers.
Manager 1 is the first to use event type 8, which thereby has id 0. On manager 0
subscriber 100 subscribes once to event type 7, which takes id 0 from the counter of
manager 0, and once to event type 8: both subscriptions are entered in slot 0 of manager
0. One `emit<7>` of manager 0 then invokes the `receive` of subscriber 100 twice,
although it subscribed to type 7 once. Without the call on manager 1 the same two
subscriptions go to the slots 0 and 1 and `emit<7>` invokes subscriber 100 once. -/
theorem emit_shared_slot_invokes_twice :
    (World.fresh (κ := Nat)).run (fun _ _ => [])
        [.add_event 1 8, .subscribe 0 7 100, .subscribe 0 8 100]
      = some (World.after (fun _ _ => [])
          [.add_event 1 8, .subscribe 0 7 100, .subscribe 0 8 100]) ∧
    (World.after (κ := Nat) (fun _ _ => [])
      [.add_event 1 8, .subscribe 0 7 100, .subscribe 0 8 100]).event_id 7 = some 0 ∧
    (World.after (κ := Nat) (fun _ _ => [])
      [.add_event 1 8, .subscribe 0 7 100, .subscribe 0 8 100]).event_id 8 = some 0 ∧
    (World.after (κ := Nat) (fun _ _ => [])
      [.add_event 1 8, .subscribe 0 7 100, .subscribe 0 8 100]).subscribers 0 0
      = some [100, 100] ∧
    (emit (fun _ _ => [])
      (World.after (κ := Nat) (fun _ _ => [])
        [.add_event 1 8, .subscribe 0 7 100, .subscribe 0 8 100]) 0 7).result
      = some [{ subscriber := 100, id := 0, event_manager := 0 },
              { subscriber := 100, id := 0, event_manager := 0 }] ∧
    (World.after (κ := Nat) (fun _ _ => [])
      [.subscribe 0 7 100, .subscribe 0 8 100]).subscribers 0 0 = some [100] ∧
    (emit (fun _ _ => [])
      (World.after (κ := Nat) (fun _ _ => [])
        [.subscribe 0 7 100, .subscribe 0 8 100]) 0 7).result
      = some [{ subscriber := 100, id := 0, event_manager := 0 }] ∧
    (7 : Nat) ≠ 8 :=
  ⟨rfl, rfl, rfl, rfl, rfl, rfl, rfl, by decide⟩

/-- C15 (symmetric unsubscribe), evaluated on a reachable state with two event managers.
Subscriber 100 subscribes to event type 8 on manager 1 and to event type 7 on manager 0;
each type takes its id from the counter of the manager that used it first, so both ids
are 0 and the `subscribed` vector of the subscriber is `[0, 0]`. `unsubscribe<7>(100)`
on manager 0 then erases both entries: the subscription to the other type 8 is gone
from the `subscribed` vector of the subscriber, while slot 0 of manager 1 still lists the
subscriber and `emit<8>` of manager 1 still invokes it. -/
theorem unsubscribe_shared_id_one_sided :
    (World.fresh (κ := Nat)).run (fun _ _ => []) [.subscribe 1 8 100, .subscribe 0 7 100]
      = some (World.after (fun _ _ => []) [.subscribe 1 8 100, .subscribe 0 7 100]) ∧
    (World.after (κ := Nat) (fun _ _ => [])
      [.subscribe 1 8 100, .subscribe 0 7 100]).event_id 7 = some 0 ∧
    (World.after (κ := Nat) (fun _ _ => [])
      [.subscribe 1 8 100, .subscribe 0 7 100]).event_id 8 = some 0 ∧
    (World.after (κ := Nat) (fun _ _ => [])
      [.subscribe 1 8 100, .subscribe 0 7 100]).subscribed 100 = [0, 0] ∧
    (World.after (κ := Nat) (fun _ _ => [])
      [.subscribe 1 8 100, .subscribe 0 7 100]).subscribers 1 0 = some [100] ∧
    (unsubscribe (World.after (κ := Nat) (fun _ _ => [])
      [.subscribe 1 8 100, .subscribe 0 7 100]) 0 7 100).result = some () ∧
    (World.fresh (κ := Nat)).run (fun _ _ => [])
        [.subscribe 1 8 100, .subscribe 0 7 100, .unsubscribe 0 7 100]
      = some (World.after (fun _ _ => [])
          [.subscribe 1 8 100, .subscribe 0 7 100, .unsubscribe 0 7 100]) ∧
    (World.after (κ := Nat) (fun _ _ => [])
      [.subscribe 1 8 100, .subscribe 0 7 100, .unsubscribe 0 7 100]).subscribers 0 0
      = some [] ∧
    (World.after (κ := Nat) (fun _ _ => [])
      [.subscribe 1 8 100, .subscribe 0 7 100, .unsubscribe 0 7 100]).subscribed 100 = [] ∧
    (World.after (κ := Nat) (fun _ _ => [])
      [.subscribe 1 8 100, .subscribe 0 7 100, .unsubscribe 0 7 100]).subscribers 1 0
      = some [100] ∧
    (emit (fun _ _ => [])
      (World.after (κ := Nat) (fun _ _ => [])
        [.subscribe 1 8 100, .subscribe 0 7 100, .unsubscribe 0 7 100]) 1 8).result
      = some [{ subscriber := 100, id := 0, event_manager := 1 }] ∧
    (7 : Nat) ≠ 8 :=
  ⟨rfl, rfl, rfl, rfl, rfl, rfl, rfl, rfl, rfl, rfl, rfl, by decide⟩

/-- C16 (`add_event`), evaluated on a reachable state of a single manager. Subscriber 100
subscribes to event type 1 and its `receive` calls `is_event<2>` and `is_event<3>` on the
event it gets from `emit<1>`, which gives types 2 and 3 the ids 1 and 2 while the event
vector has length 1. Then `add_event<3>` finds no slot for type 3, grows the vector by
one and lets the `std::out_of_range` of `events.at(2)` escape instead of returning
`true`. After that `add_event<2>` returns `false` although no slot for type 2 was ever
created, and slot 1 still holds no event. -/
theorem add_event_out_of_step :
    (World.fresh (κ := Nat)).run (fun _ _ => [Call.is_event 2, Call.is_event 3])
        [.subscribe 0 1 100, .emit 0 1]
      = some (World.after (fun _ _ => [Call.is_event 2, Call.is_event 3])
          [.subscribe 0 1 100, .emit 0 1]) ∧
    (World.after (κ := Nat) (fun _ _ => [Call.is_event 2, Call.is_event 3])
      [.subscribe 0 1 100, .emit 0 1]).event_id 3 = some 2 ∧
    (World.after (κ := Nat) (fun _ _ => [Call.is_event 2, Call.is_event 3])
      [.subscribe 0 1 100, .emit 0 1]).events 0
      = [some { id := 0, subscribers := [100] }] ∧
    (add_event (World.after (κ := Nat) (fun _ _ => [Call.is_event 2, Call.is_event 3])
      [.subscribe 0 1 100, .emit 0 1]) 0 3).throws = true ∧
    (World.fresh (κ := Nat)).run (fun _ _ => [Call.is_event 2, Call.is_event 3])
        [.subscribe 0 1 100, .emit 0 1, .add_event 0 3]
      = some (World.after (fun _ _ => [Call.is_event 2, Call.is_event 3])
          [.subscribe 0 1 100, .emit 0 1, .add_event 0 3]) ∧
    (World.after (κ := Nat) (fun _ _ => [Call.is_event 2, Call.is_event 3])
      [.subscribe 0 1 100, .emit 0 1, .add_event 0 3]).events 0
      = [some { id := 0, subscribers := [100] }, none] ∧
    (World.after (κ := Nat) (fun _ _ => [Call.is_event 2, Call.is_event 3])
      [.subscribe 0 1 100, .emit 0 1, .add_event 0 3]).event_id 2 = some 1 ∧
    (add_event (World.after (κ := Nat) (fun _ _ => [Call.is_event 2, Call.is_event 3])
      [.subscribe 0 1 100, .emit 0 1, .add_event 0 3]) 0 2).result = some false ∧
    (World.after (κ := Nat) (fun _ _ => [Call.is_event 2, Call.is_event 3])
      [.subscribe 0 1 100, .emit 0 1, .add_event 0 3, .add_event 0 2]).subscribers 0 1
      = none :=
  ⟨rfl, rfl, rfl, rfl, rfl, rfl, rfl, rfl, rfl⟩

/-- C17 (emission and changes of the subscriber list), evaluated on reachable states.
Subscribers 100, 101 and 102 are subscribed to event type 7 and the `receive` of 100
unsubscribes 100 from type 7. The subscriber vector is iterated in place, the erase made
from inside the first callback invalidates the iterators of the loop, and `emit<7>` is
undefined; the same holds with the two subscribers 100 and 101 only. -/
theorem emit_unsubscribe_in_receive :
    (World.fresh (κ := Nat)).run (fun _ _ => [])
        [.subscribe 0 7 100, .subscribe 0 7 101, .subscribe 0 7 102]
      = some (World.after (fun _ _ => [])
          [.subscribe 0 7 100, .subscribe 0 7 101, .subscribe 0 7 102]) ∧
    (World.after (κ := Nat) (fun _ _ => [])
      [.subscribe 0 7 100, .subscribe 0 7 101, .subscribe 0 7 102]).subscribers 0 0
      = some [100, 101, 102] ∧
    emit (fun s _ => if s = 100 then [Call.unsubscribe 0 7 100] else [])
      (World.after (κ := Nat) (fun _ _ => [])
        [.subscribe 0 7 100, .subscribe 0 7 101, .subscribe 0 7 102]) 0 7 = .undefined ∧
    (World.after (κ := Nat) (fun _ _ => [])
      [.subscribe 0 7 100, .subscribe 0 7 101]).subscribers 0 0 = some [100, 101] ∧
    emit (fun s _ => if s = 100 then [Call.unsubscribe 0 7 100] else [])
      (World.after (κ := Nat) (fun _ _ => [])
        [.subscribe 0 7 100, .subscribe 0 7 101]) 0 7 = .undefined :=
  ⟨rfl, rfl, rfl, rfl, rfl⟩

/-- C18 (`is_event`), evaluated on a reachable state with two event managers. Manager 1 is
the first to use event type 8 and manager 0 the first to use event type 7: each type
takes its id from the counter of the manager that used it first, and both ids are 0.
The event that `emit<7>` of manager 0 delivers to subscriber 100 answers `true` to
`is_event<7>` and also to `is_event<8>`. -/
theorem is_event_shared_id :
    (World.fresh (κ := Nat)).run (fun _ _ => []) [.add_event 1 8, .subscribe 0 7 100]
      = some (World.after (fun _ _ => []) [.add_event 1 8, .subscribe 0 7 100]) ∧
    (World.after (κ := Nat) (fun _ _ => [])
      [.add_event 1 8, .subscribe 0 7 100]).event_id 7 = some 0 ∧
    (World.after (κ := Nat) (fun _ _ => [])
      [.add_event 1 8, .subscribe 0 7 100]).event_id 8 = some 0 ∧
    (emit (fun _ _ => [])
      (World.after (κ := Nat) (fun _ _ => []) [.add_event 1 8, .subscribe 0 7 100]) 0 7).result
      = some [{ subscriber := 100, id := 0, event_manager := 0 }] ∧
    (is_event (World.after (κ := Nat) (fun _ _ => []) [.add_event 1 8, .subscribe 0 7 100])
      { subscriber := 100, id := 0, event_manager := 0 } 7).1 = true ∧
    (is_event (World.after (κ := Nat) (fun _ _ => []) [.add_event 1 8, .subscribe 0 7 100])
      { subscriber := 100, id := 0, event_manager := 0 } 8).1 = true ∧
    (7 : Nat) ≠ 8 :=
  ⟨rfl, rfl, rfl, rfl, rfl, rfl, by decide⟩

end Events

/-! ## System manager: claim C19 -/

/-- The loop of `SystemManager::update` with system callbacks that return: every system
still to call is invoked once, in order, with the pointers of the system manager and the
given time. -/
theorem update_from_calls (sm : SystemManager)
    (sys : Nat → Nat → EntityManager V → Outcome (EntityManager V) Unit) (dt : Nat)
    (hsys : ∀ x s, ∃ s1, sys x dt s = .returned () s1) (l : List Nat) :
    ∀ s : EntityManager V, ∃ s1,
      sm.update_from sys dt l s
        = .returned (l.map (sm.invocation dt)) s1 := by
  induction l with
  | nil => intro s; exact ⟨s, rfl⟩
  | cons x rest ih =>
    intro s
    obtain ⟨s1, h1⟩ := hsys x s
    obtain ⟨s2, h2⟩ := ih s1
    exact ⟨s2, by simp [SystemManager.update_from, h1, h2]⟩

/-- Method `update_ecs_managers` when the sweep finds no inactive entity and the system
callbacks return: every registered system is invoked once, in registration order, with
the same two manager pointers and the given time. -/
theorem update_ecs_managers_calls (ecs : ECSManagers V)
    (sys : Nat → Nat → EntityManager V → Outcome (EntityManager V) Unit) (dt : Nat)
    (hsweep : ∀ e, some e ∈ ecs.entity_manager.entities → e.active = true)
    (hsys : ∀ x s, ∃ s1, sys x dt s = .returned () s1) :
    ∃ ecs1, ecs.update_ecs_managers sys dt
      = .returned (ecs.system_manager.systems.map (ecs.system_manager.invocation dt)) ecs1 ∧
      ecs1.system_manager = ecs.system_manager := by
  obtain ⟨s1, h1⟩ := update_from_calls ecs.system_manager sys dt hsys
    ecs.system_manager.systems ecs.entity_manager
  refine ⟨{ ecs with entity_manager := s1 }, ?_, rfl⟩
  simp only [ECSManagers.update_ecs_managers, (update_outcome ecs.entity_manager).1 hsweep,
    SystemManager.update, h1]

/-- C19 (system order), evaluated on an `ECSManagers` object with systems 1, 2 and 3
registered in that order and one entity, where the `update` of system 2 marks entity 0
for deferred destruction. The first `update_ecs_managers(16)` sweeps and invokes systems
1, 2 and 3 in order with the same pointers and time. The second call does not get past
the sweep, which is undefined on the inactive entity, and invokes no system. -/
theorem update_ecs_managers_second_tick :
    ∃ ecs1 : ECSManagers Unit,
      (EntityManager.fresh (V := Unit)).add_entity
        = .returned (Entity.construct 0)
            { next_id := 1, entities := [some (Entity.construct 0)], empty_id := [] } ∧
      ({ entity_manager := { next_id := 1, entities := [some (Entity.construct 0)],
                             empty_id := [] },
         system_manager :=
           (((ECSManagers.construct 10 20 : ECSManagers Unit).system_manager.add_system
             1).add_system 2).add_system 3 } : ECSManagers Unit).update_ecs_managers
          (fun x _ s => if x = 2 then Entity.destroy s 0 false else .returned () s) 16
        = .returned
            [{ system := 1, entity_manager := 10, event_manager := 20, delta_time := 16 },
             { system := 2, entity_manager := 10, event_manager := 20, delta_time := 16 },
             { system := 3, entity_manager := 10, event_manager := 20, delta_time := 16 }]
            ecs1 ∧
      ecs1.system_manager.systems = [1, 2, 3] ∧
      ecs1.update_ecs_managers
          (fun x _ s => if x = 2 then Entity.destroy s 0 false else .returned () s) 16
        = .undefined :=
  ⟨{ entity_manager :=
       { next_id := 1, entities := [some { (Entity.construct 0) with active := false }],
         empty_id := [] },
     system_manager := { entity_manager := 10, event_manager := 20, systems := [1, 2, 3] } },
   rfl, rfl, rfl, rfl⟩
/-! ## Entity views: claim C20 -/

/-- The loop of `entity_filter<T>()` over the slots from index `k` on, when every entity
still to visit sits in the slot named by its id: the pointers to the entities whose
presence bit is set, in table order. -/
theorem entity_filter_T_from_eq (s : EntityManager V) (tid : Nat) (ht : tid < MAX_COMPONENT)
    (l : List (Option (Entity V))) :
    ∀ k : Nat,
      (∀ j e, l[j]? = some (some e) → e.id = k + j ∧ s.at_get (k + j) = some (some (k + j))) →
      s.entity_filter_T_from tid l
        = .returned ((l.enumFrom k).filterMap (fun io =>
            match io.2 with
            | some e => if e.component_bitset tid then some (some io.1) else none
            | none => none)) () := by
  induction l with
  | nil => intro k _; rfl
  | cons x rest ih =>
    intro k h
    have hrest : ∀ j e, rest[j]? = some (some e) →
        e.id = (k + 1) + j ∧ s.at_get ((k + 1) + j) = some (some ((k + 1) + j)) := by
      intro j e hj
      have := h (j + 1) e (by simpa using hj)
      rw [show k + (j + 1) = k + 1 + j by omega] at this
      exact this
    cases x with
    | none =>
      simp only [EntityManager.entity_filter_T_from, List.enumFrom_cons,
        List.filterMap_cons]
      exact ih (k + 1) hrest
    | some e =>
      obtain ⟨hid, hat⟩ := h 0 e (by simp)
      simp only [Nat.add_zero] at hid hat
      simp only [EntityManager.entity_filter_T_from, Entity.has_component, if_pos ht,
        List.enumFrom_cons, List.filterMap_cons]
      cases hb : e.component_bitset tid with
      | false =>
        simp only [Bool.false_eq_true, if_false]
        exact ih (k + 1) hrest
      | true =>
        simp only [hid, hat, ih (k + 1) hrest, if_true]

/-- The loop of `entity_filter()` over the slots from index `k` on, when every entity still
to visit sits in the slot named by its id: the pointers to all of them, in table
order. -/
theorem entity_filter_from_eq (s : EntityManager V) (l : List (Option (Entity V))) :
    ∀ k : Nat,
      (∀ j e, l[j]? = some (some e) → e.id = k + j ∧ s.at_get (k + j) = some (some (k + j))) →
      s.entity_filter_from l
        = .returned ((l.enumFrom k).filterMap (fun io =>
            match io.2 with
            | some e => if (fun _ : Entity V => true) e then some (some io.1) else none
            | none => none)) () := by
  induction l with
  | nil => intro k _; rfl
  | cons x rest ih =>
    intro k h
    have hrest : ∀ j e, rest[j]? = some (some e) →
        e.id = (k + 1) + j ∧ s.at_get ((k + 1) + j) = some (some ((k + 1) + j)) := by
      intro j e hj
      have := h (j + 1) e (by simpa using hj)
      rw [show k + (j + 1) = k + 1 + j by omega] at this
      exact this
    cases x with
    | none =>
      simp only [EntityManager.entity_filter_from, List.enumFrom_cons, List.filterMap_cons]
      exact ih (k + 1) hrest
    | some e =>
      obtain ⟨hid, hat⟩ := h 0 e (by simp)
      simp only [Nat.add_zero] at hid hat
      simp only [EntityManager.entity_filter_from, List.enumFrom_cons, List.filterMap_cons,
        hid, hat, ih (k + 1) hrest, if_true]

/-- In a table where every entity sits in the slot named by its id, `entities.at(id).get()`
for the id of a live entity is the pointer to that entity. -/
theorem at_get_of_IdIsIndex (s : EntityManager V) (h : IdIsIndex s.entities) :
    ∀ j e, s.entities[j]? = some (some e) →
      e.id = 0 + j ∧ s.at_get (0 + j) = some (some (0 + j)) := by
  intro j e hj
  refine ⟨by rw [h j e hj]; omega, ?_⟩
  simp [EntityManager.at_get, hj]

/-- The loop of `EntityContainer::entity_filter<T>()` over pointers that are null or refer
to live entities: the pointers to the entities whose presence bit is set, in the order
of the container. -/
theorem container_filter_eq (s : EntityManager V) (tid : Nat) (ht : tid < MAX_COMPONENT)
    (hs : IdIsIndex s.entities) (view : List (Option Nat))
    (hview : ∀ p ∈ view, p = none ∨ ∃ i, p = some i ∧ s.live i = true) :
    EntityContainer.entity_filter s tid view = .returned (view.filter (s.carries tid)) () := by
  induction view with
  | nil => rfl
  | cons p rest ih =>
    have ih1 := ih (fun q hq => hview q (List.mem_cons_of_mem _ hq))
    rcases hview p (List.mem_cons_self _ _) with hp | ⟨i, hp, hlive⟩
    · subst hp
      simp only [EntityContainer.entity_filter, ih1, List.filter_cons, EntityManager.carries]
      simp
    · subst hp
      have hslot : ∃ e, s.entities[i]? = some (some e) := by
        simp only [EntityManager.live] at hlive
        split at hlive
        · next e he => exact ⟨e, he⟩
        · cases hlive
      obtain ⟨e, he⟩ := hslot
      obtain ⟨hid, hat⟩ := at_get_of_IdIsIndex s hs i e he
      simp only [Nat.zero_add] at hid hat
      simp only [EntityContainer.entity_filter, he, Entity.has_component, if_pos ht,
        List.filter_cons, EntityManager.carries]
      cases hb : e.component_bitset tid with
      | false => simp [ih1]
      | true => simp [hid, hat, ih1]

/-- Every pointer of `live_with` refers to a live entity. -/
theorem live_with_live (s : EntityManager V) (q : Entity V → Bool) :
    ∀ p ∈ s.live_with q, p = none ∨ ∃ i, p = some i ∧ s.live i = true := by
  intro p hp
  simp only [EntityManager.live_with, List.mem_filterMap] at hp
  obtain ⟨io, hio, hp⟩ := hp
  have hget : s.entities[io.1]? = some io.2 := List.mem_enum_iff_getElem?.mp hio
  cases h2 : io.2 with
  | none => simp [h2] at hp
  | some e =>
    simp only [h2] at hp
    split at hp
    · injection hp with hp
      refine Or.inr ⟨io.1, hp.symm, ?_⟩
      simp [EntityManager.live, hget, h2]
    · cases hp

/-- Keeping, among the pointers to the live entities that satisfy `q`, those whose presence
bit is set gives the pointers to the live entities that satisfy both. -/
theorem filter_carries_enumFrom (s : EntityManager V) (tid : Nat) (q : Entity V → Bool)
    (l : List (Option (Entity V))) :
    ∀ k : Nat, (∀ j o, l[j]? = some o → s.entities[k + j]? = some o) →
      ((l.enumFrom k).filterMap (fun io =>
          match io.2 with
          | some e => if q e then some (some io.1) else none
          | none => none)).filter (s.carries tid)
        = (l.enumFrom k).filterMap (fun io =>
          match io.2 with
          | some e => if (q e && e.component_bitset tid) then some (some io.1) else none
          | none => none) := by
  induction l with
  | nil => intro k _; rfl
  | cons x rest ih =>
    intro k h
    have hrest : ∀ j o, rest[j]? = some o → s.entities[(k + 1) + j]? = some o := by
      intro j o hj
      have := h (j + 1) o (by simpa using hj)
      rw [show k + (j + 1) = k + 1 + j by omega] at this
      exact this
    have hk : s.entities[k]? = some x := by simpa using h 0 x (by simp)
    cases x with
    | none =>
      simp only [List.enumFrom_cons, List.filterMap_cons]
      exact ih (k + 1) hrest
    | some e =>
      simp only [List.enumFrom_cons, List.filterMap_cons]
      cases hq : q e with
      | false =>
        simp only [Bool.false_and, Bool.false_eq_true, if_false]
        exact ih (k + 1) hrest
      | true =>
        cases hb : e.component_bitset tid with
        | false =>
          simp only [Bool.true_and, Bool.false_eq_true, if_false, if_true, List.filter_cons,
            EntityManager.carries, hk, hb]
          exact ih (k + 1) hrest
        | true =>
          simp only [Bool.true_and, if_true, List.filter_cons, EntityManager.carries, hk, hb,
            ih (k + 1) hrest]

/-- C20 amended (filter chaining). In every reachable manager state and for component types
`A` and `B` whose ids are below `MAX_COMPONENT`: `entity_filter()` returns the pointers to all live entities
and `entity_filter<A>()` the pointers to the live entities whose presence bit for `A` is
set, in table order; `EntityContainer::entity_filter<B>()` on a container whose
pointers are null or refer to live entities of the state returns the pointers whose
entity carries `B`, in the order of the container; hence `entity_filter<A>()` followed
by `entity_filter<B>()` and `entity_filter<B>()` followed by `entity_filter<A>()` both
return the pointers to the live entities that carry `A` and `B`, and `entity_filter()`
followed by `entity_filter<A>()` returns what `entity_filter<A>()` returns. -/
theorem filter_chaining (s : EntityManager V) (hs : Reachable s) (A B : Nat)
    (hA : A < MAX_COMPONENT) (hB : B < MAX_COMPONENT) :
    s.entity_filter = .returned (s.live_with (fun _ => true)) () ∧
    s.entity_filter_T A = .returned (s.live_with (fun e => e.component_bitset A)) () ∧
    s.entity_filter_T B = .returned (s.live_with (fun e => e.component_bitset B)) () ∧
    (∀ view : List (Option Nat),
      (∀ p ∈ view, p = none ∨ ∃ i, p = some i ∧ s.live i = true) →
      EntityContainer.entity_filter s B view = .returned (view.filter (s.carries B)) ()) ∧
    EntityContainer.entity_filter s B (s.live_with (fun e => e.component_bitset A))
      = .returned (s.live_with (fun e => e.component_bitset A && e.component_bitset B)) () ∧
    EntityContainer.entity_filter s A (s.live_with (fun e => e.component_bitset B))
      = .returned (s.live_with (fun e => e.component_bitset A && e.component_bitset B)) () ∧
    EntityContainer.entity_filter s A (s.live_with (fun _ => true))
      = .returned (s.live_with (fun e => e.component_bitset A)) () := by
  have hidx := reachable_IdIsIndex s hs
  have hat := at_get_of_IdIsIndex s hidx
  have hsame : ∀ j o, s.entities[j]? = some o → s.entities[0 + j]? = some o := by
    intro j o h
    simpa using h
  have hchain : ∀ (T : Nat) (q : Entity V → Bool), T < MAX_COMPONENT →
      EntityContainer.entity_filter s T (s.live_with q)
        = .returned (s.live_with (fun e => q e && e.component_bitset T)) () := by
    intro T q hT
    rw [container_filter_eq s T hT hidx _ (live_with_live s q)]
    simp only [EntityManager.live_with, List.enum]
    rw [filter_carries_enumFrom s T q s.entities 0 hsame]
  refine ⟨?_, ?_, ?_, ?_, hchain B _ hB, ?_, ?_⟩
  · exact entity_filter_from_eq s s.entities 0 hat
  · exact entity_filter_T_from_eq s A hA s.entities 0 hat
  · exact entity_filter_T_from_eq s B hB s.entities 0 hat
  · intro view hview
    exact container_filter_eq s B hB hidx view hview
  · rw [hchain A _ hA]
    have hfun : (fun e : Entity V => e.component_bitset B && e.component_bitset A)
        = (fun e : Entity V => e.component_bitset A && e.component_bitset B) := by
      funext e
      exact Bool.and_comm _ _
    rw [hfun]
  · rw [hchain A _ hA]
    simp

/-- Witness of the amended C20 on the manager built by `three_entities`. -/
theorem filter_chaining_witness :
    Reachable (EntityManager.after three_entities) ∧
    1 < MAX_COMPONENT ∧ 2 < MAX_COMPONENT ∧
    (EntityManager.after three_entities).entity_filter_T 1
      = .returned ((EntityManager.after three_entities).live_with
          (fun e => e.component_bitset 1)) () ∧
    (EntityManager.after three_entities).live_with (fun e => e.component_bitset 1)
      = [some 0, some 2] ∧
    (EntityManager.after three_entities).live_with (fun e => e.component_bitset 2)
      = [some 0, some 1] ∧
    (EntityManager.after three_entities).live_with
        (fun e => e.component_bitset 1 && e.component_bitset 2) = [some 0] :=
  ⟨⟨three_entities, rfl⟩, by decide, by decide,
   (filter_chaining (EntityManager.after three_entities) ⟨three_entities, rfl⟩ 1 2
      (by decide) (by decide)).2.1, rfl, rfl, rfl⟩

/-- C20 as stated fails for a component type beyond the capacity. From the fresh registry
the 33rd and the 34th distinct component type receive the ids 32 and 33. In the reachable
state with the one live entity 0, which carries no component, `entity_filter()` returns
the pointer to entity 0, but `entity_filter<T>()` for either type indexes the presence
bits of entity 0 outside their `MAX_COMPONENT` positions and returns no list, and so
does `EntityContainer::entity_filter<T>()` on the view that `entity_filter()`
returned. -/
theorem entity_filter_type_beyond_capacity :
    (component_results (World.fresh (κ := Nat))
        ((List.range 34).map IdRequest.component)).map TypeId.id = List.range 34 ∧
    Reachable (EntityManager.after (V := Nat) [.add_entity]) ∧
    (EntityManager.after (V := Nat) [.add_entity]).entity_filter = .returned [some 0] () ∧
    (EntityManager.after (V := Nat) [.add_entity]).live_with (fun e => e.component_bitset 33)
      = [] ∧
    (EntityManager.after (V := Nat) [.add_entity]).entity_filter_T 32 = .undefined ∧
    (EntityManager.after (V := Nat) [.add_entity]).entity_filter_T 33 = .undefined ∧
    (EntityManager.after (V := Nat) [.add_entity]).entity_filter_T 33
      ≠ .returned ((EntityManager.after (V := Nat) [.add_entity]).live_with
          (fun e => e.component_bitset 33)) () ∧
    EntityContainer.entity_filter (EntityManager.after (V := Nat) [.add_entity]) 33 [some 0]
      = .undefined := by
  refine ⟨by decide, ⟨[.add_entity], rfl⟩, rfl, rfl, rfl, rfl, ?_, rfl⟩
  intro h
  cases h

/-! ## Subscription bookkeeping: claim C22 -/

section Bookkeeping

variable {κ : Type} [DecidableEq κ]

/-- The counter of a manager after a request for an event id: unchanged when the static of
the type is initialised; otherwise the id returned is the former counter and the new
counter is at most one more. -/
theorem get_event_id_next (w : World κ) (m : Nat) (T : κ) :
    (∀ id, w.event_id T = some id →
      (get_event_id w m T).1 = id ∧ (get_event_id w m T).2.next_event_id = w.next_event_id) ∧
    (w.event_id T = none →
      (get_event_id w m T).1 = w.next_event_id m ∧
      (get_event_id w m T).2.next_event_id m ≤ w.next_event_id m + 1) := by
  constructor
  · intro id h
    rw [get_event_id_of_some w m T id h]
    exact ⟨rfl, rfl⟩
  · intro h
    simp only [get_event_id, h, if_true]
    exact ⟨trivial, Nat.mod_le _ _⟩

/-- The counters after `add_event` returned are those after its first request for the id. -/
theorem add_event_next (w w1 : World κ) (m : Nat) (T : κ) (b : Bool)
    (h : add_event w m T = .returned b w1) :
    w1.next_event_id = (get_event_id w m T).2.next_event_id := by
  have has := get_event_id_assigned w m T
  have h2 : get_event_id (get_event_id w m T).2 m T
      = ((get_event_id w m T).1, (get_event_id w m T).2) :=
    get_event_id_of_some _ m T _ has
  simp only [add_event, h2, if_true] at h
  by_cases hlt : (get_event_id w m T).1 < ((get_event_id w m T).2.events m).length
  · rw [if_pos hlt] at h
    injection h with _ hw
    subst hw
    rfl
  · rw [if_neg hlt] at h
    by_cases hlt2 : (get_event_id w m T).1
        < ((get_event_id w m T).2.events m ++ [none]).length
    · rw [if_pos hlt2] at h
      injection h with _ hw
      subst hw
      rfl
    · rw [if_neg hlt2] at h
      cases h

/-- Method `add_event` returns when the id of the type is at most the length of the event
vector. -/
theorem add_event_returns (w : World κ) (m : Nat) (T : κ)
    (h : (get_event_id w m T).1 ≤ (w.events m).length) :
    ∃ b w1, add_event w m T = .returned b w1 := by
  have hev := get_event_id_events w m T
  have has := get_event_id_assigned w m T
  have h2 : get_event_id (get_event_id w m T).2 m T
      = ((get_event_id w m T).1, (get_event_id w m T).2) :=
    get_event_id_of_some _ m T _ has
  simp only [add_event, h2, if_true]
  by_cases hlt : (get_event_id w m T).1 < ((get_event_id w m T).2.events m).length
  · rw [if_pos hlt]
    exact ⟨_, _, rfl⟩
  · rw [if_neg hlt]
    have hlt2 : (get_event_id w m T).1
        < ((get_event_id w m T).2.events m ++ [none]).length := by
      rw [hev.1]
      simp only [List.length_append, List.length_singleton]
      omega
    rw [if_pos hlt2]
    exact ⟨_, _, rfl⟩

/-- In a world that satisfies `Bookkeeping`, `add_event` returns and the world it leaves
satisfies `Bookkeeping`. -/
theorem add_event_bookkeeping (w : World κ) (m : Nat) (T : κ) (hw : Bookkeeping w m) :
    ∃ b w1, add_event w m T = .returned b w1 ∧ Bookkeeping w1 m := by
  obtain ⟨ha, hb, hc, hd⟩ := hw
  obtain ⟨hsome, hnone⟩ := get_event_id_next w m T
  have hid_le : (get_event_id w m T).1 ≤ (w.events m).length := by
    cases hT : w.event_id T with
    | some id =>
      rw [(hsome id hT).1]
      exact Nat.le_of_lt (hb T id hT)
    | none =>
      rw [(hnone hT).1]
      exact ha
  obtain ⟨b, w1, hret⟩ := add_event_returns w m T hid_le
  refine ⟨b, w1, hret, ?_⟩
  obtain ⟨hid, hids, hsub, hother, hcase⟩ := add_event_returned w w1 m T b hret
  obtain ⟨hslot, hslots⟩ := add_event_slot w w1 m T b hret
  have hnext := add_event_next w w1 m T b hret
  have hlen : (w.events m).length ≤ (w1.events m).length := by
    rcases hcase with ⟨-, -, hev⟩ | ⟨-, -, hev⟩
    · rw [hev]
    · rw [hev]
      simp
  have hc1 : ∀ j, j < (w1.events m).length → ∃ ev, (w1.events m)[j]? = some (some ev) := by
    intro j hj
    rcases hcase with ⟨-, -, hev⟩ | ⟨-, hidl, hev⟩
    · rw [hev] at hj ⊢
      exact hc j hj
    · rw [hev] at hj ⊢
      simp only [List.length_append, List.length_singleton] at hj
      by_cases hjl : j < (w.events m).length
      · rw [List.getElem?_append_left hjl]
        exact hc j hjl
      · have hje : j = (w.events m).length := by omega
        subst hje
        exact ⟨{ id := (get_event_id w m T).1, subscribers := [] }, by simp⟩
  refine ⟨?_, ?_, hc1, ?_⟩
  · rw [hnext]
    cases hT : w.event_id T with
    | some id =>
      rw [(hsome id hT).2]
      exact Nat.le_trans ha hlen
    | none =>
      have h1 := (hnone hT).2
      have h2 := (hnone hT).1
      rcases hcase with ⟨-, hlt, hev⟩ | ⟨-, hidl, hev⟩
      · rw [hev]
        omega
      · rw [hev]
        simp only [List.length_append, List.length_singleton]
        omega
  · intro U id hU
    by_cases hUT : U = T
    · subst hUT
      rw [hid] at hU
      injection hU with hU
      subst hU
      rcases hcase with ⟨-, hlt, hev⟩ | ⟨-, hidl, hev⟩
      · rw [hev]
        exact hlt
      · rw [hev]
        simp only [List.length_append, List.length_singleton]
        omega
    · rw [hids U hUT] at hU
      exact Nat.lt_of_lt_of_le (hb U id hU) hlen
  · intro j S
    rw [hsub]
    by_cases hj : j = (get_event_id w m T).1
    · subst hj
      have hjl : (get_event_id w m T).1 < (w1.events m).length := by
        rcases hcase with ⟨-, hlt, hev⟩ | ⟨-, hidl, hev⟩
        · rw [hev]
          exact hlt
        · rw [hev]
          simp only [List.length_append, List.length_singleton]
          omega
      obtain ⟨ev, hev⟩ := hc1 _ hjl
      have : w1.subscribers m (get_event_id w m T).1 = some ev.subscribers := by
        simp [World.subscribers, hev]
      rw [this, Option.getD_some, hslot ev hev]
      exact hd _ S
    · rw [hslots j hj]
      exact hd j S

/-- `Bookkeeping` after the event of a slot was replaced by one with subscriber list `L1`
and the `subscribed` vector of subscriber `s` by `sub1`, when the counts of the new
lists agree. -/
theorem bookkeeping_update {κ : Type} (wa : World κ) (m id s : Nat) (ev : Event) (L1 sub1 : List Nat)
    (hwa : Bookkeeping wa m) (hev : (wa.events m)[id]? = some (some ev))
    (hS : ∀ S, S ≠ s → L1.count S = ev.subscribers.count S)
    (hj : ∀ j, j ≠ id → sub1.count j = (wa.subscribed s).count j)
    (hboth : L1.count s = sub1.count id) :
    Bookkeeping
      ({ wa with
          events := fun k =>
            if k = m then (wa.events m).set id (some { ev with subscribers := L1 })
            else wa.events k
          subscribed := fun x => if x = s then sub1 else wa.subscribed x } : World κ) m := by
  obtain ⟨ha, hb, hc, hd⟩ := hwa
  have hset := subscribers_set wa m id ev { ev with subscribers := L1 } _ hev rfl
  have hold : wa.subscribers m id = some ev.subscribers := by
    simp [World.subscribers, hev]
  refine ⟨?_, ?_, ?_, ?_⟩
  · simpa using ha
  · intro T k hT
    simpa using hb T k hT
  · intro j hjl
    simp only [if_true, List.length_set] at hjl ⊢
    rw [List.getElem?_set]
    by_cases hji : id = j
    · subst hji
      simp [hjl]
    · simp only [hji, if_false]
      exact hc j hjl
  · intro j S
    by_cases hji : j = id
    · subst hji
      have h1 : World.subscribers
          ({ wa with
              events := fun k =>
                if k = m then (wa.events m).set j (some { ev with subscribers := L1 })
                else wa.events k
              subscribed := fun x => if x = s then sub1 else wa.subscribed x } : World κ) m j
          = some L1 := hset.1
      rw [h1, Option.getD_some]
      by_cases hSs : S = s
      · subst hSs
        simpa using hboth
      · have h2 := hd j S
        rw [hold, Option.getD_some] at h2
        simp only [hSs, if_false]
        rw [hS S hSs, h2]
    · have h1 : World.subscribers
          ({ wa with
              events := fun k =>
                if k = m then (wa.events m).set id (some { ev with subscribers := L1 })
                else wa.events k
              subscribed := fun x => if x = s then sub1 else wa.subscribed x } : World κ) m j
          = wa.subscribers m j := hset.2.1 j hji
      rw [h1]
      by_cases hSs : S = s
      · subst hSs
        simp only [if_true]
        rw [hj j hji]
        exact hd j S
      · simp only [hSs, if_false]
        exact hd j S

/-- In a world that satisfies `Bookkeeping`, `subscribe` returns and the world it leaves
satisfies `Bookkeeping`. -/
theorem subscribe_bookkeeping (w : World κ) (m : Nat) (T : κ) (s : Nat)
    (hw : Bookkeeping w m) :
    ∃ w1, subscribe w m T s = .returned () w1 ∧ Bookkeeping w1 m := by
  obtain ⟨b, wa, hret, hwa⟩ := add_event_bookkeeping w m T hw
  obtain ⟨hid, -⟩ := add_event_returned w wa m T b hret
  obtain ⟨ev, hev⟩ := hwa.2.2.1 _ (hwa.2.1 T _ hid)
  have hg := get_event_id_of_some wa m T _ hid
  have hg3 := get_event_id_of_some
    ({ wa with
        events := fun k =>
          if k = m then
            (wa.events m).set (get_event_id w m T).1
              (some { ev with subscribers := ev.subscribers ++ [s] })
          else wa.events k } : World κ) m T _ hid
  refine ⟨_, ?_, bookkeeping_update wa m (get_event_id w m T).1 s ev (ev.subscribers ++ [s])
    (wa.subscribed s ++ [(get_event_id w m T).1]) hwa hev ?_ ?_ ?_⟩
  · simp only [subscribe, hret, hg, hev, hg3]
  · intro S hS
    simp [List.count_append, List.count_singleton, hS]
  · intro j hj
    simp [List.count_append, List.count_singleton, hj]
  · have h := hwa.2.2.2 (get_event_id w m T).1 s
    simp only [World.subscribers, hev, Option.getD_some] at h
    simp [List.count_append, h]

/-- In a world that satisfies `Bookkeeping`, `unsubscribe` returns and the world it leaves
satisfies `Bookkeeping`. -/
theorem unsubscribe_bookkeeping (w : World κ) (m : Nat) (T : κ) (s : Nat)
    (hw : Bookkeeping w m) :
    ∃ w1, unsubscribe w m T s = .returned () w1 ∧ Bookkeeping w1 m := by
  obtain ⟨b, wa, hret, hwa⟩ := add_event_bookkeeping w m T hw
  obtain ⟨hid, -⟩ := add_event_returned w wa m T b hret
  obtain ⟨ev, hev⟩ := hwa.2.2.1 _ (hwa.2.1 T _ hid)
  have hg := get_event_id_of_some wa m T _ hid
  refine ⟨_, ?_, bookkeeping_update wa m (get_event_id w m T).1 s ev
    (ev.subscribers.filter (· ≠ s))
    ((wa.subscribed s).filter (· ≠ (get_event_id w m T).1)) hwa hev ?_ ?_ ?_⟩
  · simp only [unsubscribe, hret, hg, hev]
  · intro S hS
    rw [List.count_filter]
    simpa using hS
  · intro j hj
    rw [List.count_filter]
    simpa using hj
  · rw [List.count_eq_zero.mpr (by simp [List.mem_filter]),
      List.count_eq_zero.mpr (by simp [List.mem_filter])]

/-- The world at program start satisfies `Bookkeeping` for every manager. -/
theorem bookkeeping_fresh {κ : Type} (m : Nat) : Bookkeeping (World.fresh (κ := κ)) m := by
  refine ⟨Nat.le_refl _, ?_, ?_, ?_⟩
  · intro T id h
    cases h
  · intro j hj
    simp [World.fresh] at hj
  · intro j S
    simp [World.fresh, World.subscribers]

/-- Every sequence of `subscribe` and `unsubscribe` calls on manager `m`, made in a world
that satisfies `Bookkeeping`, runs through and leaves a world that satisfies it. -/
theorem run_bookkeeping (recv : Nat → Nat → List (Call κ)) (m : Nat) (ops : List (EventOp κ)) :
    ∀ w0 : World κ, Bookkeeping w0 m →
      (∀ op ∈ ops, ∃ T s, op = EventOp.subscribe m T s ∨ op = EventOp.unsubscribe m T s) →
      ∃ w, w0.run recv ops = some w ∧ Bookkeeping w m := by
  induction ops with
  | nil => intro w0 h0 _; exact ⟨w0, rfl, h0⟩
  | cons op rest ih =>
    intro w0 h0 hops
    obtain ⟨T, s, hop⟩ := hops op (List.mem_cons_self _ _)
    have hrest := fun o ho => hops o (List.mem_cons_of_mem _ ho)
    rcases hop with hop | hop
    · subst hop
      obtain ⟨w1, h1, hb1⟩ := subscribe_bookkeeping w0 m T s h0
      obtain ⟨w, hw, hb⟩ := ih w1 hb1 hrest
      exact ⟨w, by simp [World.run, World.perform, h1, Outcome.continues, hw], hb⟩
    · subst hop
      obtain ⟨w1, h1, hb1⟩ := unsubscribe_bookkeeping w0 m T s h0
      obtain ⟨w, hw, hb⟩ := ih w1 hb1 hrest
      exact ⟨w, by simp [World.run, World.perform, h1, Outcome.continues, hw], hb⟩

/-- C22 (subscription bookkeeping). Every sequence of `subscribe<E>(S)` and
`unsubscribe<E>(S)` calls made from program start on one event manager, for any event
types and subscribers, runs through, and in the state it leaves every event type `E`
that has an id has a subscriber list in which each subscriber `S` occurs exactly as
often as the id of `E` occurs in the `subscribed` vector of `S`; an id without a slot
occurs in no `subscribed` vector. -/
theorem subscription_bookkeeping (recv : Nat → Nat → List (Call κ)) (m : Nat)
    (ops : List (EventOp κ))
    (hops : ∀ op ∈ ops,
      ∃ T s, op = EventOp.subscribe m T s ∨ op = EventOp.unsubscribe m T s) :
    ∃ w, (World.fresh (κ := κ)).run recv ops = some w ∧
      (∀ (E : κ) (id S : Nat), w.event_id E = some id →
        ∃ L, w.subscribers m id = some L ∧ L.count S = (w.subscribed S).count id) ∧
      (∀ j S, ((w.subscribers m j).getD []).count S = (w.subscribed S).count j) := by
  obtain ⟨w, hw, hb⟩ := run_bookkeeping recv m ops World.fresh (bookkeeping_fresh m) hops
  refine ⟨w, hw, ?_, hb.2.2.2⟩
  intro E id S hE
  obtain ⟨ev, hev⟩ := hb.2.2.1 id (hb.2.1 E id hE)
  have hL : w.subscribers m id = some ev.subscribers := by
    simp [World.subscribers, hev]
  refine ⟨ev.subscribers, hL, ?_⟩
  have h := hb.2.2.2 id S
  rw [hL, Option.getD_some] at h
  exact h

/-- Witness of C22: on manager 0, subscriber 100 subscribes twice to event type 7 and once
to event type 9, unsubscribes from type 9, and subscriber 101 subscribes to type 7. -/
theorem subscription_bookkeeping_witness :
    (∀ op ∈ [EventOp.subscribe 0 (7 : Nat) 100, .subscribe 0 7 100, .subscribe 0 9 100,
        .unsubscribe 0 9 100, .subscribe 0 7 101],
      ∃ T s, op = EventOp.subscribe 0 T s ∨ op = EventOp.unsubscribe 0 T s) ∧
    (∃ w, (World.fresh (κ := Nat)).run (fun _ _ => [])
        [.subscribe 0 7 100, .subscribe 0 7 100, .subscribe 0 9 100, .unsubscribe 0 9 100,
         .subscribe 0 7 101] = some w ∧
      (∀ (E : Nat) (id S : Nat), w.event_id E = some id →
        ∃ L, w.subscribers 0 id = some L ∧ L.count S = (w.subscribed S).count id) ∧
      (∀ j S, ((w.subscribers 0 j).getD []).count S = (w.subscribed S).count j)) ∧
    (World.after (κ := Nat) (fun _ _ => [])
      [.subscribe 0 7 100, .subscribe 0 7 100, .subscribe 0 9 100, .unsubscribe 0 9 100,
       .subscribe 0 7 101]).subscribers 0 0 = some [100, 100, 101] ∧
    (World.after (κ := Nat) (fun _ _ => [])
      [.subscribe 0 7 100, .subscribe 0 7 100, .subscribe 0 9 100, .unsubscribe 0 9 100,
       .subscribe 0 7 101]).subscribed 100 = [0, 0] := by
  have hops : ∀ op ∈ [EventOp.subscribe 0 (7 : Nat) 100, .subscribe 0 7 100,
      .subscribe 0 9 100, .unsubscribe 0 9 100, .subscribe 0 7 101],
      ∃ T s, op = EventOp.subscribe 0 T s ∨ op = EventOp.unsubscribe 0 T s := by
    intro op hop
    simp only [List.mem_cons, List.mem_singleton, List.not_mem_nil, or_false] at hop
    rcases hop with h | h | h | h | h <;> subst h <;> simp
  exact ⟨hops, subscription_bookkeeping (fun _ _ => []) 0 _ hops, rfl, rfl⟩

end Bookkeeping

end lecs

namespace lio

/-! ## Line segments: claims C21 and C23 -/

/-- The error term of the loops pins down the number of minor steps: with `0 < a`, if
`2 * a * d` lies in the half-open interval from `-a` to `a`, then `d` is zero. -/
theorem minor_steps_done_lo (a d : Int) (ha : 0 < a) (h1 : -a ≤ 2 * a * d)
    (h2 : 2 * a * d < a) : d = 0 := by
  by_contra hd
  rcases lt_or_gt_of_ne hd with hneg | hpos
  · have : 2 * a * d ≤ 2 * a * (-1) :=
      Int.mul_le_mul_of_nonneg_left (by omega) (by omega)
    omega
  · have : 2 * a * 1 ≤ 2 * a * d :=
      Int.mul_le_mul_of_nonneg_left (by omega) (by omega)
    omega

/-- Same as `minor_steps_done_lo` for the interval that is open below and closed above. -/
theorem minor_steps_done_hi (a d : Int) (ha : 0 < a) (h1 : -a < 2 * a * d)
    (h2 : 2 * a * d ≤ a) : d = 0 := by
  by_contra hd
  rcases lt_or_gt_of_ne hd with hneg | hpos
  · have : 2 * a * d ≤ 2 * a * (-1) :=
      Int.mul_le_mul_of_nonneg_left (by omega) (by omega)
    omega
  · have : 2 * a * 1 ≤ 2 * a * d :=
      Int.mul_le_mul_of_nonneg_left (by omega) (by omega)
    omega

/-- The loop along `x`, `n` steps before `xe`, with `k` of the `dy1` minor steps taken so
far and the minor direction `s`: it appends `n` points, each one step to the right of
the one before and at most one step up or down, and the last point reached is
`(xe, y + s * (dy1 - k))`. -/
theorem plot_x_spec (dx dy dx1 dy1 xe s : Int) (hdx1 : 0 < dx1) (hdy1 : 0 ≤ dy1)
    (hle : dy1 ≤ dx1)
    (hs : (((dx < 0 ∧ dy < 0) ∨ (dx > 0 ∧ dy > 0)) ∧ s = 1) ∨
          (¬ ((dx < 0 ∧ dy < 0) ∨ (dx > 0 ∧ dy > 0)) ∧ s = -1)) :
    ∀ (n : Nat) (x y px k : Int) (out : List (Vec2 Int)),
      xe - x = n → 2 * dy1 - 2 * dx1 ≤ px → px < 2 * dy1 →
      px = 2 * dy1 - dx1 + 2 * (dx1 - n) * dy1 - 2 * k * dx1 →
      ∃ pts, LineSeg.plot_x dx dy dx1 dy1 xe x y px out = out ++ pts ∧
        pts.length = n ∧
        List.Chain StepX { x := x, y := y } pts ∧
        (({ x := x, y := y } : Vec2 Int) :: pts).getLast?
          = some { x := xe, y := y + s * (dy1 - k) } := by
  intro n
  induction n with
  | zero =>
    intro x y px k out hn hlo hhi hpx
    have hk : dy1 - k = 0 := by
      apply minor_steps_done_lo dx1 (dy1 - k) hdx1
      · have : 2 * dx1 * (dy1 - k) = px - 2 * dy1 + dx1 := by
          rw [hpx]; push_cast; ring
        omega
      · have : 2 * dx1 * (dy1 - k) = px - 2 * dy1 + dx1 := by
          rw [hpx]; push_cast; ring
        omega
    refine ⟨[], ?_, rfl, List.Chain.nil, ?_⟩
    · rw [LineSeg.plot_x, if_neg (by omega)]
      simp
    · have hx : xe = x := by omega
      simp [hk, hx]
  | succ n ih =>
    intro x y px k out hn hlo hhi hpx
    have hlt : x < xe := by omega
    rw [LineSeg.plot_x, if_pos hlt]
    by_cases hneg : px < 0
    · rw [if_pos hneg]
      obtain ⟨pts, h1, h2, h3, h4⟩ := ih (x + 1) y (px + 2 * dy1) k
        (out ++ [{ x := x + 1, y := y }]) (by omega) (by omega) (by omega)
        (by rw [hpx]; push_cast; ring)
      refine ⟨{ x := x + 1, y := y } :: pts, ?_, ?_, ?_, ?_⟩
      · rw [h1]; simp
      · simp [h2]
      · exact List.Chain.cons ⟨rfl, by simp, by simp⟩ h3
      · rw [List.getLast?_cons_cons]
        exact h4
    · rw [if_neg hneg]
      rcases hs with ⟨hc, hs1⟩ | ⟨hc, hs1⟩
      · rw [if_pos hc]
        obtain ⟨pts, h1, h2, h3, h4⟩ := ih (x + 1) (y + 1) (px + 2 * (dy1 - dx1)) (k + 1)
          (out ++ [{ x := x + 1, y := y + 1 }]) (by omega) (by omega) (by omega)
          (by rw [hpx]; push_cast; ring)
        refine ⟨{ x := x + 1, y := y + 1 } :: pts, ?_, ?_, ?_, ?_⟩
        · rw [h1]; simp
        · simp [h2]
        · exact List.Chain.cons ⟨rfl, by simp, by simp⟩ h3
        · rw [List.getLast?_cons_cons, h4, hs1]
          congr 2
          ring
      · rw [if_neg hc]
        obtain ⟨pts, h1, h2, h3, h4⟩ := ih (x + 1) (y - 1) (px + 2 * (dy1 - dx1)) (k + 1)
          (out ++ [{ x := x + 1, y := y - 1 }]) (by omega) (by omega) (by omega)
          (by rw [hpx]; push_cast; ring)
        refine ⟨{ x := x + 1, y := y - 1 } :: pts, ?_, ?_, ?_, ?_⟩
        · rw [h1]; simp
        · simp [h2]
        · exact List.Chain.cons ⟨rfl, by simp, by simp⟩ h3
        · rw [List.getLast?_cons_cons, h4, hs1]
          congr 2
          ring

/-- The loop along `y`, `n` steps before `ye`, with `k` of the `dx1` minor steps taken so
far and the minor direction `s`: it appends `n` points, each one step above the one
before and at most one step to the right or left, and the last point reached is
`(x + s * (dx1 - k), ye)`. -/
theorem plot_y_spec (dx dy dx1 dy1 ye s : Int) (hdy1 : 0 < dy1) (hdx1 : 0 ≤ dx1)
    (hle : dx1 ≤ dy1)
    (hs : (((dx < 0 ∧ dy < 0) ∨ (dx > 0 ∧ dy > 0)) ∧ s = 1) ∨
          (¬ ((dx < 0 ∧ dy < 0) ∨ (dx > 0 ∧ dy > 0)) ∧ s = -1)) :
    ∀ (n : Nat) (x y py k : Int) (out : List (Vec2 Int)),
      ye - y = n → 2 * dx1 - 2 * dy1 < py → py ≤ 2 * dx1 →
      py = 2 * dx1 - dy1 + 2 * (dy1 - n) * dx1 - 2 * k * dy1 →
      ∃ pts, LineSeg.plot_y dx dy dx1 dy1 ye x y py out = out ++ pts ∧
        pts.length = n ∧
        List.Chain StepY { x := x, y := y } pts ∧
        (({ x := x, y := y } : Vec2 Int) :: pts).getLast?
          = some { x := x + s * (dx1 - k), y := ye } := by
  intro n
  induction n with
  | zero =>
    intro x y py k out hn hlo hhi hpy
    have hk : dx1 - k = 0 := by
      apply minor_steps_done_hi dy1 (dx1 - k) hdy1
      · have : 2 * dy1 * (dx1 - k) = py - 2 * dx1 + dy1 := by
          rw [hpy]; push_cast; ring
        omega
      · have : 2 * dy1 * (dx1 - k) = py - 2 * dx1 + dy1 := by
          rw [hpy]; push_cast; ring
        omega
    refine ⟨[], ?_, rfl, List.Chain.nil, ?_⟩
    · rw [LineSeg.plot_y, if_neg (by omega)]
      simp
    · have hy : ye = y := by omega
      simp [hk, hy]
  | succ n ih =>
    intro x y py k out hn hlo hhi hpy
    have hlt : y < ye := by omega
    rw [LineSeg.plot_y, if_pos hlt]
    by_cases hneg : py ≤ 0
    · rw [if_pos hneg]
      obtain ⟨pts, h1, h2, h3, h4⟩ := ih x (y + 1) (py + 2 * dx1) k
        (out ++ [{ x := x, y := y + 1 }]) (by omega) (by omega) (by omega)
        (by rw [hpy]; push_cast; ring)
      refine ⟨{ x := x, y := y + 1 } :: pts, ?_, ?_, ?_, ?_⟩
      · rw [h1]; simp
      · simp [h2]
      · exact List.Chain.cons ⟨rfl, by simp, by simp⟩ h3
      · rw [List.getLast?_cons_cons]
        exact h4
    · rw [if_neg hneg]
      rcases hs with ⟨hc, hs1⟩ | ⟨hc, hs1⟩
      · rw [if_pos hc]
        obtain ⟨pts, h1, h2, h3, h4⟩ := ih (x + 1) (y + 1) (py + 2 * (dx1 - dy1)) (k + 1)
          (out ++ [{ x := x + 1, y := y + 1 }]) (by omega) (by omega) (by omega)
          (by rw [hpy]; push_cast; ring)
        refine ⟨{ x := x + 1, y := y + 1 } :: pts, ?_, ?_, ?_, ?_⟩
        · rw [h1]; simp
        · simp [h2]
        · exact List.Chain.cons ⟨rfl, by simp, by simp⟩ h3
        · rw [List.getLast?_cons_cons, h4, hs1]
          congr 2
          ring
      · rw [if_neg hc]
        obtain ⟨pts, h1, h2, h3, h4⟩ := ih (x - 1) (y + 1) (py + 2 * (dx1 - dy1)) (k + 1)
          (out ++ [{ x := x - 1, y := y + 1 }]) (by omega) (by omega) (by omega)
          (by rw [hpy]; push_cast; ring)
        refine ⟨{ x := x - 1, y := y + 1 } :: pts, ?_, ?_, ?_, ?_⟩
        · rw [h1]; simp
        · simp [h2]
        · exact List.Chain.cons ⟨rfl, by simp, by simp⟩ h3
        · rw [List.getLast?_cons_cons, h4, hs1]
          congr 2
          ring

/-- A whole run of the loop along `x` from the first point `(x0, y0)`, already appended, to
`xe`: together with the first point it appends `|dx| + 1` points that start at
`(x0, y0)`, end at `(xe, y0 + s * |dy|)` and advance by steps along `x`. -/
theorem plot_x_run (dx dy x0 y0 xe s : Int) (out : List (Vec2 Int))
    (hn : xe - x0 = dx.natAbs) (hle : dy.natAbs ≤ dx.natAbs)
    (hs : (((dx < 0 ∧ dy < 0) ∨ (dx > 0 ∧ dy > 0)) ∧ s = 1) ∨
          (¬ ((dx < 0 ∧ dy < 0) ∨ (dx > 0 ∧ dy > 0)) ∧ s = -1)) :
    ∃ pts,
      LineSeg.plot_x dx dy dx.natAbs dy.natAbs xe x0 y0 (2 * dy.natAbs - dx.natAbs)
          (out ++ [{ x := x0, y := y0 }]) = out ++ pts ∧
      pts.length = dx.natAbs + 1 ∧
      pts.head? = some { x := x0, y := y0 } ∧
      pts.getLast? = some { x := xe, y := y0 + s * dy.natAbs } ∧
      List.Chain' StepX pts := by
  by_cases h0 : dx.natAbs = 0
  · have hdy : dy.natAbs = 0 := by omega
    refine ⟨[{ x := x0, y := y0 }], ?_, by simp [h0], rfl, ?_, by simp⟩
    · rw [LineSeg.plot_x, if_neg (by omega)]
    · have hx : xe = x0 := by omega
      simp [hdy, hx]
  · obtain ⟨pts, h1, h2, h3, h4⟩ := plot_x_spec dx dy dx.natAbs dy.natAbs xe s
      (by omega) (by omega) (by omega) hs dx.natAbs x0 y0 (2 * dy.natAbs - dx.natAbs) 0
      (out ++ [{ x := x0, y := y0 }]) hn (by omega) (by omega) (by ring)
    refine ⟨{ x := x0, y := y0 } :: pts, ?_, by simp [h2], rfl, ?_, h3⟩
    · rw [h1]; simp
    · rw [h4]; simp

/-- A whole run of the loop along `y` from the first point `(x0, y0)`, already appended, to
`ye`: together with the first point it appends `|dy| + 1` points that start at
`(x0, y0)`, end at `(x0 + s * |dx|, ye)` and advance by steps along `y`. -/
theorem plot_y_run (dx dy x0 y0 ye s : Int) (out : List (Vec2 Int))
    (hn : ye - y0 = dy.natAbs) (hlt : dx.natAbs < dy.natAbs)
    (hs : (((dx < 0 ∧ dy < 0) ∨ (dx > 0 ∧ dy > 0)) ∧ s = 1) ∨
          (¬ ((dx < 0 ∧ dy < 0) ∨ (dx > 0 ∧ dy > 0)) ∧ s = -1)) :
    ∃ pts,
      LineSeg.plot_y dx dy dx.natAbs dy.natAbs ye x0 y0 (2 * dx.natAbs - dy.natAbs)
          (out ++ [{ x := x0, y := y0 }]) = out ++ pts ∧
      pts.length = dy.natAbs + 1 ∧
      pts.head? = some { x := x0, y := y0 } ∧
      pts.getLast? = some { x := x0 + s * dx.natAbs, y := ye } ∧
      List.Chain' StepY pts := by
  obtain ⟨pts, h1, h2, h3, h4⟩ := plot_y_spec dx dy dx.natAbs dy.natAbs ye s
    (by omega) (by omega) (by omega) hs dy.natAbs x0 y0 (2 * dx.natAbs - dy.natAbs) 0
    (out ++ [{ x := x0, y := y0 }]) hn (by omega) (by omega) (by ring)
  refine ⟨{ x := x0, y := y0 } :: pts, ?_, by simp [h2], rfl, ?_, h3⟩
  · rw [h1]; simp
  · rw [h4]; simp

/-- C21 (`Plot` rasterises the whole segment). For every segment with integer end points
and every vector `out`, `Plot` ends with `out` followed by `max(|dx|, |dy|) + 1` new
points; the first new point is the end point with the smaller coordinate on the major
axis (`p1` when the extent along that axis is not negative, else `p2`), the last new
point is the other end point, and from each new point to the next the coordinate on the
major axis grows by one while the other coordinate changes by at most one. The major
axis is `x` when `|dy| <= |dx|`, else `y`. -/
theorem Plot_rasterises (l : LineSeg Int) (out : List (Vec2 Int)) :
    ∃ pts, l.Plot out = out ++ pts ∧
      pts.length = max l.dx.natAbs l.dy.natAbs + 1 ∧
      pts.head? = some
        (if l.along_x then (if l.dx ≥ 0 then l.p1 else l.p2)
         else (if l.dy ≥ 0 then l.p1 else l.p2)) ∧
      pts.getLast? = some
        (if l.along_x then (if l.dx ≥ 0 then l.p2 else l.p1)
         else (if l.dy ≥ 0 then l.p2 else l.p1)) ∧
      (if l.along_x then List.Chain' StepX pts else List.Chain' StepY pts) := by
  rcases l with ⟨⟨x1, y1⟩, ⟨x2, y2⟩⟩
  simp only [LineSeg.Plot, LineSeg.dx, LineSeg.dy, LineSeg.along_x]
  by_cases hxy : (y2 - y1).natAbs ≤ (x2 - x1).natAbs
  · have hxy1 : ((y2 - y1).natAbs : Int) ≤ ((x2 - x1).natAbs : Int) := by omega
    simp only [if_pos hxy, if_pos hxy1]
    have hmax : max (x2 - x1).natAbs (y2 - y1).natAbs = (x2 - x1).natAbs := by omega
    rw [hmax]
    by_cases hdx : x2 - x1 ≥ 0
    · simp only [if_pos hdx]
      by_cases hc : (x2 - x1 < 0 ∧ y2 - y1 < 0) ∨ (x2 - x1 > 0 ∧ y2 - y1 > 0)
      · obtain ⟨pts, h1, h2, h3, h4, h5⟩ := plot_x_run (x2 - x1) (y2 - y1) x1 y1 x2 1 out
          (by omega) hxy (Or.inl ⟨hc, rfl⟩)
        refine ⟨pts, h1, h2, h3, ?_, h5⟩
        rw [h4]
        congr 2
        omega
      · obtain ⟨pts, h1, h2, h3, h4, h5⟩ := plot_x_run (x2 - x1) (y2 - y1) x1 y1 x2 (-1) out
          (by omega) hxy (Or.inr ⟨hc, rfl⟩)
        refine ⟨pts, h1, h2, h3, ?_, h5⟩
        rw [h4]
        congr 2
        omega
    · simp only [if_neg hdx]
      by_cases hc : (x2 - x1 < 0 ∧ y2 - y1 < 0) ∨ (x2 - x1 > 0 ∧ y2 - y1 > 0)
      · obtain ⟨pts, h1, h2, h3, h4, h5⟩ := plot_x_run (x2 - x1) (y2 - y1) x2 y2 x1 1 out
          (by omega) hxy (Or.inl ⟨hc, rfl⟩)
        refine ⟨pts, h1, h2, h3, ?_, h5⟩
        rw [h4]
        congr 2
        omega
      · obtain ⟨pts, h1, h2, h3, h4, h5⟩ := plot_x_run (x2 - x1) (y2 - y1) x2 y2 x1 (-1) out
          (by omega) hxy (Or.inr ⟨hc, rfl⟩)
        refine ⟨pts, h1, h2, h3, ?_, h5⟩
        rw [h4]
        congr 2
        omega
  · have hxy1 : ¬ ((y2 - y1).natAbs : Int) ≤ ((x2 - x1).natAbs : Int) := by omega
    have hlt : (x2 - x1).natAbs < (y2 - y1).natAbs := by omega
    simp only [if_neg hxy, if_neg hxy1]
    have hmax : max (x2 - x1).natAbs (y2 - y1).natAbs = (y2 - y1).natAbs := by omega
    rw [hmax]
    by_cases hdy : y2 - y1 ≥ 0
    · simp only [if_pos hdy]
      by_cases hc : (x2 - x1 < 0 ∧ y2 - y1 < 0) ∨ (x2 - x1 > 0 ∧ y2 - y1 > 0)
      · obtain ⟨pts, h1, h2, h3, h4, h5⟩ := plot_y_run (x2 - x1) (y2 - y1) x1 y1 y2 1 out
          (by omega) hlt (Or.inl ⟨hc, rfl⟩)
        refine ⟨pts, h1, h2, h3, ?_, h5⟩
        rw [h4]
        congr 2
        omega
      · obtain ⟨pts, h1, h2, h3, h4, h5⟩ := plot_y_run (x2 - x1) (y2 - y1) x1 y1 y2 (-1) out
          (by omega) hlt (Or.inr ⟨hc, rfl⟩)
        refine ⟨pts, h1, h2, h3, ?_, h5⟩
        rw [h4]
        congr 2
        omega
    · simp only [if_neg hdy]
      by_cases hc : (x2 - x1 < 0 ∧ y2 - y1 < 0) ∨ (x2 - x1 > 0 ∧ y2 - y1 > 0)
      · obtain ⟨pts, h1, h2, h3, h4, h5⟩ := plot_y_run (x2 - x1) (y2 - y1) x2 y2 y1 1 out
          (by omega) hlt (Or.inl ⟨hc, rfl⟩)
        refine ⟨pts, h1, h2, h3, ?_, h5⟩
        rw [h4]
        congr 2
        omega
      · obtain ⟨pts, h1, h2, h3, h4, h5⟩ := plot_y_run (x2 - x1) (y2 - y1) x2 y2 y1 (-1) out
          (by omega) hlt (Or.inr ⟨hc, rfl⟩)
        refine ⟨pts, h1, h2, h3, ?_, h5⟩
        rw [h4]
        congr 2
        omega

/-- Witness of C21: the segment from (5, 2) to (0, 0) plotted after the point (9, 9). The
six new points run from (0, 0) to (5, 2). -/
theorem Plot_rasterises_witness :
    (LineSeg.construct 5 2 0 0 : LineSeg Int).Plot [{ x := 9, y := 9 }]
      = [{ x := 9, y := 9 }, { x := 0, y := 0 }, { x := 1, y := 0 }, { x := 2, y := 1 },
         { x := 3, y := 1 }, { x := 4, y := 2 }, { x := 5, y := 2 }] ∧
    ∃ pts, (LineSeg.construct 5 2 0 0 : LineSeg Int).Plot [{ x := 9, y := 9 }]
        = [{ x := 9, y := 9 }] ++ pts ∧
      pts.length = max (LineSeg.construct 5 2 0 0 : LineSeg Int).dx.natAbs
        (LineSeg.construct 5 2 0 0 : LineSeg Int).dy.natAbs + 1 ∧
      pts.head? = some
        (if (LineSeg.construct 5 2 0 0 : LineSeg Int).along_x then
          (if (LineSeg.construct 5 2 0 0 : LineSeg Int).dx ≥ 0 then
            (LineSeg.construct 5 2 0 0 : LineSeg Int).p1
           else (LineSeg.construct 5 2 0 0 : LineSeg Int).p2)
         else
          (if (LineSeg.construct 5 2 0 0 : LineSeg Int).dy ≥ 0 then
            (LineSeg.construct 5 2 0 0 : LineSeg Int).p1
           else (LineSeg.construct 5 2 0 0 : LineSeg Int).p2)) ∧
      pts.getLast? = some
        (if (LineSeg.construct 5 2 0 0 : LineSeg Int).along_x then
          (if (LineSeg.construct 5 2 0 0 : LineSeg Int).dx ≥ 0 then
            (LineSeg.construct 5 2 0 0 : LineSeg Int).p2
           else (LineSeg.construct 5 2 0 0 : LineSeg Int).p1)
         else
          (if (LineSeg.construct 5 2 0 0 : LineSeg Int).dy ≥ 0 then
            (LineSeg.construct 5 2 0 0 : LineSeg Int).p2
           else (LineSeg.construct 5 2 0 0 : LineSeg Int).p1)) ∧
      (if (LineSeg.construct 5 2 0 0 : LineSeg Int).along_x then List.Chain' StepX pts
       else List.Chain' StepY pts) := by
  refine ⟨?_, Plot_rasterises (LineSeg.construct 5 2 0 0) [{ x := 9, y := 9 }]⟩
  simp [LineSeg.Plot, LineSeg.construct, LineSeg.plot_x]

/-- C23 (`Set` with four coordinates), evaluated at `Set(0, 0, 1, 2)` on the segment from
(5, 5) to (5, 5): the call leaves `p2` at (1, 1), because `p2.y` is assigned `x2`, while
the constructor `LineSeg(0, 0, 1, 2)` builds the segment that ends at (1, 2). -/
theorem Set_assigns_x2_to_p2_y :
    ((LineSeg.construct 5 5 5 5 : LineSeg Int).Set 0 0 1 2).p1 = { x := 0, y := 0 } ∧
    ((LineSeg.construct 5 5 5 5 : LineSeg Int).Set 0 0 1 2).p2 = { x := 1, y := 1 } ∧
    (LineSeg.construct 0 0 1 2 : LineSeg Int).p2 = { x := 1, y := 2 } ∧
    (LineSeg.construct 5 5 5 5 : LineSeg Int).Set 0 0 1 2 ≠ LineSeg.construct 0 0 1 2 := by
  refine ⟨rfl, rfl, rfl, ?_⟩
  decide

end lio
